import Mathlib

set_option maxRecDepth 100000

/-!
Verification of the GitHub reporter tools (`src/mastra/agents/github-reporter-agent`).

The TypeScript sources are shallowly embedded below.  Conventions used
throughout the embedding:

* JavaScript strings are Lean `String`s (lists of characters); `s.includes(t)`
  is `jsIncludes`, which is substring containment.
* HTTP calls are modelled by a `FetchResult` value passed to the embedded
  function: `netErr msg` is a rejected `fetch` promise (a network error),
  `resp status statusText body` is a settled response whose JSON body has
  already been parsed into the typed shape the TypeScript code assumes.
  `response.ok` is `respOk`, true exactly for 2xx statuses.
* A function that can `throw` returns `Option`/`Except`; `none`/`.error e`
  is a thrown error, with `e` naming the error case of the spec's taxonomy.
* `Date#getFullYear`/`Date#getMonth` are modelled for a host running in UTC
  (proleptic Gregorian calendar computed from the Unix timestamp).
-/

/-! ### Generic JavaScript string primitives -/

/-- Does `l` start with `n`?  (Used to implement substring search.) -/
def listStartsWith : List Char → List Char → Bool
  | _, [] => true
  | [], _ :: _ => false
  | c :: cs, n :: ns => c = n && listStartsWith cs ns

/-- Substring containment on character lists: JavaScript `String#includes`. -/
def containsSub : List Char → List Char → Bool
  | [], n => n.isEmpty
  | c :: cs, n => listStartsWith (c :: cs) n || containsSub cs n

/-- JavaScript `String#includes`. -/
def jsIncludes (s sub : String) : Bool := containsSub s.data sub.data

/-- Strip the literal `pre` from the front of `cs`; `none` if `cs` does not
start with it.  (Used to embed the anchored literal parts of regexes.) -/
def dropLit : List Char → List Char → Option (List Char)
  | [], cs => some cs
  | _ :: _, [] => none
  | p :: ps, c :: cs => if c = p then dropLit ps cs else none

/-! ### URL parser (`parseGitHubUrl`, utils.ts)

The source matches `/^https?:\/\/github\.com\/([^/]+)\/([^/]+)(?:\/.*)?$/`
and on success returns `{ owner: m[1], repo: m[2].replace(/\.git$/, "") }`.
The regex match on this pattern is deterministic (each `[^/]+` is a maximal
run of non-`/` characters, and `.` does not match a newline), so it is
embedded as a straight-line parser. -/

structure RepoIdentity where
  owner : String
  repo : String
deriving Repr, DecidableEq

/-- A JavaScript line terminator: LF, CR, U+2028 (LINE SEPARATOR) or
U+2029 (PARAGRAPH SEPARATOR).  These are exactly the characters the
regex `.` (without the `s` flag) cannot match. -/
def isLineTerm (c : Char) : Bool :=
  c = '\n' || c = '\x0d' || c = '\u2028' || c = '\u2029'

/-- The two captured segments of the URL path: `([^/]+)\/([^/]+)(?:\/.*)?$`.
`owner` is the maximal run of non-`/` characters, then a `/`, then the
repo segment, then either the end of the string or `/` followed by any
characters none of which is a line terminator (JavaScript `.`). -/
def parseCore (cs : List Char) : Option (List Char × List Char) :=
  let owner := cs.takeWhile (fun c => c != '/')
  let rest := cs.dropWhile (fun c => c != '/')
  if owner = [] then none
  else
    match rest with
    | [] => none
    | _ :: rest2 =>
      let repoSeg := rest2.takeWhile (fun c => c != '/')
      let rest3 := rest2.dropWhile (fun c => c != '/')
      if repoSeg = [] then none
      else
        match rest3 with
        | [] => some (owner, repoSeg)
        | _ :: t => if t.all (fun c => !(isLineTerm c)) then some (owner, repoSeg) else none

/-- Embeds `repo.replace(/\.git$/, "")`: drop one trailing `.git`. -/
def stripDotGit (l : List Char) : List Char :=
  match l.reverse with
  | 't' :: 'i' :: 'g' :: '.' :: r => r.reverse
  | _ => l

/-- The optional `s` of `https?`: consume a leading `'s'` when present.
(The regex backtracking is deterministic here: if an `'s'` is present it must
be consumed, because the following literal starts with `':'`.) -/
def optS : List Char → List Char
  | 's' :: r => r
  | r => r

/-- Embeds `parseGitHubUrl` (utils.ts; an identical copy lives in
github-reporter-tool.ts).  `none` models the thrown `InvalidUrlError`. -/
def parseGitHubUrl (url : String) : Option RepoIdentity :=
  match dropLit "http".data url.data with
  | none => none
  | some r1 =>
    let r2 := optS r1
    match dropLit "://github.com/".data r2 with
    | none => none
    | some r3 =>
      match parseCore r3 with
      | none => none
      | some (owner, repoSeg) =>
        some ⟨String.mk owner, String.mk (stripDotGit repoSeg)⟩

/-! ### HTTP modelling -/

/-- Outcome of one `fetch` call: either the promise rejected (`netErr`, with
the error's `message`), or a response settled with an HTTP status, a status
text and an already-parsed JSON body of the shape the code assumes. -/
inductive FetchResult (α : Type) where
  | netErr (msg : String) : FetchResult α
  | resp (status : Nat) (statusText : String) (body : α) : FetchResult α
deriving Repr

/-- Embeds `Response#ok`: status in the 2xx range. -/
def respOk (s : Nat) : Bool := decide (200 ≤ s ∧ s ≤ 299)

/-- The `try { ... if (resp.ok) use body } catch { ... }` pattern shared by the
best-effort calls: the parsed body on a 2xx response, the default on a
network error or a non-2xx response. -/
def fetchOr {α : Type} (dflt : α) : FetchResult α → α
  | .netErr _ => dflt
  | .resp s _ body => if respOk s then body else dflt

/-! ### Repository statistics (`getGitHubRepoStats`, github-statistics-tool.ts;
an identical copy lives in github-reporter-tool.ts) -/

/-- Embeds `GitHubRepoResponse` (utils.ts): the parsed body of `GET /repos/o/r`. -/
structure RepoMeta where
  name : String
  full_name : String
  description : Option String
  ownerLogin : String
  ownerType : String
  stargazers_count : Nat
  forks_count : Nat
  open_issues_count : Nat
  watchers_count : Nat
  language : Option String
  license : Option (String × String)
  pushed_at : String
  updated_at : String
  created_at : String
  isPrivate : Bool
  isArchived : Bool
  isDisabled : Bool
deriving Repr

/-- Embeds `GitHubContributor` (utils.ts). -/
structure Contributor where
  login : String
  contributions : Nat
  avatar_url : String
  html_url : String
deriving Repr

/-- Embeds `GitHubPullRequest` (utils.ts). -/
structure PullReq where
  number : Nat
  state : String
  title : String
  created_at : String
  closed_at : Option String
deriving Repr

structure RepositoryOut where
  name : String
  fullName : String
  description : Option String
  owner : String
  ownerType : String
deriving Repr, DecidableEq

structure StatisticsOut where
  stars : Nat
  forks : Nat
  openIssues : Nat
  watchers : Nat
  primaryLanguage : Option String
deriving Repr, DecidableEq

structure ContributorOut where
  username : String
  contributions : Nat
  profileUrl : String
deriving Repr, DecidableEq

structure ActivityOut where
  lastPush : String
  lastUpdate : String
  createdAt : String
deriving Repr, DecidableEq

structure PullRequestsOut where
  «open» : Nat
  closed : Nat
  total : Nat
deriving Repr, DecidableEq

structure StatusOut where
  isPrivate : Bool
  isArchived : Bool
  isDisabled : Bool
deriving Repr, DecidableEq

/-- The record returned by `getGitHubRepoStats`. -/
structure StatsOut where
  repository : RepositoryOut
  statistics : StatisticsOut
  contributors : List ContributorOut
  activity : ActivityOut
  pullRequests : PullRequestsOut
  license : Option (String × String)
  status : StatusOut
deriving Repr, DecidableEq

/-- The spec's error taxonomy for the statistics fetcher.  The source throws
`Error`s with fixed messages; each constructor stands for one of them. -/
inductive StatsError where
  | invalidUrl : StatsError
  | networkFailure (msg : String) : StatsError
  | repositoryNotFound (owner repo : String) : StatsError
  | rateLimited : StatsError
  | upstream (status : Nat) (statusText : String) : StatsError
deriving Repr, DecidableEq

/-- Embeds `getGitHubRepoStats(repoUrl)`.  The three `fetch` calls are supplied as
`FetchResult`s: `primary` is `GET /repos/o/r`, `contribResp` is the
contributors call, `pullsResp` the pull-requests call.  The primary call's
failures are thrown (`.error`); the two secondary calls are wrapped in
`try`/`catch` and degrade to `[]` / zero counts. -/
def getGitHubRepoStats (url : String) (primary : FetchResult RepoMeta)
    (contribResp : FetchResult (List Contributor))
    (pullsResp : FetchResult (List PullReq)) : Except StatsError StatsOut :=
  match parseGitHubUrl url with
  | none => .error .invalidUrl
  | some id =>
    match primary with
    | .netErr m => .error (.networkFailure m)
    | .resp s st repoData =>
      if respOk s then
        let contributors : List Contributor := fetchOr [] contribResp
        let prs : List PullReq := fetchOr [] pullsResp
        let openPRs := (prs.filter (fun pr => pr.state = "open")).length
        let closedPRs := (prs.filter (fun pr => pr.state = "closed")).length
        .ok
          { repository :=
              { name := repoData.name
                fullName := repoData.full_name
                description := repoData.description
                owner := repoData.ownerLogin
                ownerType := repoData.ownerType }
            statistics :=
              { stars := repoData.stargazers_count
                forks := repoData.forks_count
                openIssues := repoData.open_issues_count
                watchers := repoData.watchers_count
                primaryLanguage := repoData.language }
            contributors := (contributors.take 3).map fun c =>
              { username := c.login
                contributions := c.contributions
                profileUrl := c.html_url }
            activity :=
              { lastPush := repoData.pushed_at
                lastUpdate := repoData.updated_at
                createdAt := repoData.created_at }
            pullRequests := { «open» := openPRs, closed := closedPRs, total := openPRs + closedPRs }
            license := repoData.license
            status :=
              { isPrivate := repoData.isPrivate
                isArchived := repoData.isArchived
                isDisabled := repoData.isDisabled } }
      else if s = 404 then .error (.repositoryNotFound id.owner id.repo)
      else if s = 403 then .error .rateLimited
      else .error (.upstream s st)

/-! ### Good first issues (`getGoodFirstIssues`, good-first-issues-tool.ts;
an identical copy lives in github-reporter-tool.ts) -/

/-- A raw issue from `GET /repos/o/r/issues?...`.  A label is either a bare
string (`Sum.inl`) or an object, of which only `.name` is used (`Sum.inr`). -/
structure RawIssue where
  title : String
  html_url : String
  labels : List (String ⊕ String)
  comments : Nat
  number : Nat
deriving Repr

/-- The normalized issue shape `{title, url, labels, comments, number}`. -/
structure IssueOut where
  title : String
  url : String
  labels : List String
  comments : Nat
  number : Nat
deriving Repr, DecidableEq

/-- The record returned by `getGoodFirstIssues`. -/
structure IssuesResult where
  issues : List IssueOut
  repo : String
  owner : String
  message : Option String
deriving Repr, DecidableEq

/-- Errors thrown by `getGoodFirstIssues`: `MissingCredentialsError` is the
`"GitHub token not set..."` throw, `invalidUrl` the parser's throw. -/
inductive IssuesError where
  | missingCredentials : IssuesError
  | invalidUrl : IssuesError
deriving Repr, DecidableEq

/-- Embeds `getGoodFirstIssues(repoUrl)`.  `token` is `process.env.GITHUB_TOKEN`
(`none` when unset); `issuesResp` is the single issues `fetch`, whose body is
`none` when the parsed JSON is not an array.  The token check runs before the
URL parse and before the fetch; the fetch and everything after it sit inside
`try`/`catch`. -/
def getGoodFirstIssues (token : Option String) (url : String)
    (issuesResp : FetchResult (Option (List RawIssue))) :
    Except IssuesError IssuesResult :=
  match token with
  | none => .error .missingCredentials
  | some _ =>
    match parseGitHubUrl url with
    | none => .error .invalidUrl
    | some rid =>
      match issuesResp with
      | .netErr m =>
        .ok ⟨[], rid.repo, rid.owner, some ("Error fetching issues: " ++ m)⟩
      | .resp s st body =>
        if respOk s then
          match body with
          | none =>
            .ok ⟨[], rid.repo, rid.owner,
              some "There are currently no open 'good first issues' in this repository."⟩
          | some [] =>
            .ok ⟨[], rid.repo, rid.owner,
              some "There are currently no open 'good first issues' in this repository."⟩
          | some issues =>
            .ok ⟨issues.map (fun i =>
                  ⟨i.title, i.html_url, i.labels.map (Sum.elim id id), i.comments, i.number⟩),
              rid.repo, rid.owner, none⟩
        else if s = 404 then
          .ok ⟨[], rid.repo, rid.owner,
            some ("Repository '" ++ rid.owner ++ "/" ++ rid.repo ++ "' not found.")⟩
        else if s = 403 then
          .ok ⟨[], rid.repo, rid.owner,
            some "GitHub API rate limit exceeded or access denied."⟩
        else
          .ok ⟨[], rid.repo, rid.owner,
            some ("Failed to fetch issues: " ++ toString s ++ " " ++ st)⟩

/-! ### Commit activity (`getRepoCommitActivity`, utils.ts) -/

/-- One entry of the `stats/commit_activity` response: `{week, total}` with
`week` in Unix seconds. -/
structure WeekEntry where
  week : Int
  total : Nat
deriving Repr, DecidableEq

/-- Year and month (1-12) of a Unix timestamp in seconds, UTC proleptic
Gregorian calendar: the embedding of `new Date(week * 1000)` followed by
`getFullYear()` / `getMonth() + 1` on a UTC host. -/
def civilYM (t : Int) : Int × Nat :=
  let days : Int := Int.fdiv t 86400
  let z : Int := days + 719468
  let era : Int := Int.fdiv z 146097
  let doe : Nat := (z - era * 146097).toNat
  let yoe : Nat := (doe - doe / 1461 + doe / 36524 - doe / 146096) / 365
  let y : Int := (yoe : Int) + era * 400
  let doy : Nat := doe - (365 * yoe + yoe / 4 - yoe / 100)
  let mp : Nat := (5 * doy + 2) / 153
  let m : Nat := if mp < 10 then mp + 3 else mp - 9
  (if m ≤ 2 then y + 1 else y, m)

/-- Embeds the month key `` `${d.getFullYear()}-${(d.getMonth() + 1).toString().padStart(2, '0')}` ``. -/
def monthKey (t : Int) : String :=
  let ym := civilYM t
  toString ym.1 ++ "-" ++ (if ym.2 < 10 then "0" ++ toString ym.2 else toString ym.2)

/-- Embeds `monthly[month] = (monthly[month] || 0) + w.total` on the insertion-ordered
record `monthly`: update the existing key in place or append a new one. -/
def bump : List (String × Nat) → String → Nat → List (String × Nat)
  | [], k, v => [(k, v)]
  | (k', v') :: rest, k, v =>
    if k' = k then (k', v' + v) :: rest else (k', v') :: bump rest k v

/-- Embeds the `monthly[month]` lookup (`0` for a missing key). -/
def lookupVal : List (String × Nat) → String → Nat
  | [], _ => 0
  | (k, v) :: rest, k' => if k' = k then v else lookupVal rest k'

/-- The `weeks.forEach` accumulation into the `monthly` record. -/
def aggregateMonthly (ws : List WeekEntry) : List (String × Nat) :=
  ws.foldl (fun acc w => bump acc (monthKey w.week) w.total) []

/-- Shape `\x7b labels, data \x7d` of the commit-activity series. -/
structure CommitSeries where
  labels : List String
  data : List Nat
deriving Repr, DecidableEq

/-- Embeds `getRepoCommitActivity(repoUrl)` after the URL parse: the fetch outcome is
supplied; the body is `none` when the parsed JSON is not an array.
`labels = Object.keys(monthly)`, `data = labels.map(m => monthly[m])`. -/
def getRepoCommitActivity (resp : FetchResult (Option (List WeekEntry))) : CommitSeries :=
  match resp with
  | .netErr _ => ⟨[], []⟩
  | .resp s _ body =>
    if respOk s then
      match body with
      | none => ⟨[], []⟩
      | some [] => ⟨[], []⟩
      | some ws =>
        let monthly := aggregateMonthly ws
        let labels := monthly.map Prod.fst
        ⟨labels, labels.map (lookupVal monthly)⟩
    else ⟨[], []⟩

/-! ### Issue detail fetcher (`fetchIssueDetails`, utils.ts; an identical copy
lives in github-reporter-tool.ts) -/

/-- The parts of an issue-detail payload the guide generator reads. -/
structure IssueDetail where
  title : String
  body : String
  labels : List String
  comments : Nat
deriving Repr, DecidableEq

/-- The record the source returns when the detail `fetch` fails
("Return basic info if API call fails"). -/
def issuePlaceholder (issueNumber : Nat) : IssueDetail :=
  ⟨"Issue #" ++ toString issueNumber, "Unable to fetch issue details", [], 0⟩

/-- Embeds `fetchIssueDetails(owner, repo, issueNumber)` after URL interpolation: the
single `fetch` outcome is supplied.  The `fetch` and the `json()` call sit
inside `try`/`catch`, so every failure falls through to the placeholder — the
function never throws (it is total here). -/
def fetchIssueDetails (issueNumber : Nat) (resp : FetchResult IssueDetail) : IssueDetail :=
  match resp with
  | .netErr _ => issuePlaceholder issueNumber
  | .resp s _ body => if respOk s then body else issuePlaceholder issueNumber

/-! ### Issue type classification (`determineIssueType`,
good-first-issues-with-guide-tool.ts; an identical copy lives in
github-reporter-tool.ts) -/

/-- Embeds `determineIssueType(title, body, labels)`.  `labels.includes(x)` is exact
membership; `title.includes(x)` / `body.includes(x)` is substring search. -/
def determineIssueType (title body : String) (labels : List String) : String :=
  if "bug" ∈ labels then "Bug Fix"
  else if "documentation" ∈ labels then "Documentation"
  else if "enhancement" ∈ labels then "Feature Enhancement"
  else if "test" ∈ labels then "Testing"
  else if "performance" ∈ labels then "Performance"
  else if jsIncludes title "fix" || jsIncludes body "fix" then "Bug Fix"
  else if jsIncludes title "add" || jsIncludes body "add" then "Feature Addition"
  else if jsIncludes title "improve" || jsIncludes body "improve" then "Improvement"
  else "General Issue"

/-! ### Requirement extraction (`extractRequirements`,
good-first-issues-with-guide-tool.ts; an identical copy lives in
github-reporter-tool.ts) -/

/-- A sentence terminator of the split regex `/[.!?]+/`. -/
def isTerm (c : Char) : Bool := c = '.' || c = '!' || c = '?'

/-- JavaScript whitespace (`\s`, `trim`), restricted to the ASCII whitespace
characters, which are the only ones the proofs and witnesses use. -/
def isWS (c : Char) : Bool :=
  c = ' ' || c = '\t' || c = '\n' || c = '\x0d' || c = '\x0c' || c = '\x0b'

/-- A JavaScript word character (`\w`): ASCII alphanumeric or underscore. -/
def isWordChar (c : Char) : Bool := c.isAlphanum || c = '_'

/-- Embeds `body.split(/[.!?]+/)`: split on maximal runs of sentence terminators.
JavaScript keeps leading/trailing empty pieces, so `"."` splits into two
empty strings. -/
def splitRuns : List Char → List (List Char)
  | [] => [[]]
  | c :: cs =>
    if isTerm c then
      match cs with
      | [] => [[], []]
      | d :: _ =>
        if isTerm d then splitRuns cs
        else [] :: splitRuns cs
    else
      match splitRuns cs with
      | [] => [[c]]
      | p :: ps => (c :: p) :: ps

/-- Embeds `String#trim`. -/
def jsTrim (cs : List Char) : List Char :=
  ((cs.dropWhile isWS).reverse.dropWhile isWS).reverse

/-- Embeds `sentence.replace(/^\w+\s+/, '')`: if the string starts with a maximal
run of word characters followed by at least one whitespace character, drop
both; otherwise the regex does not match and nothing is replaced. -/
def stripLeadWord (cs : List Char) : List Char :=
  let w := cs.takeWhile isWordChar
  if w = [] then cs
  else
    let rest := cs.dropWhile isWordChar
    if rest.takeWhile isWS = [] then cs else rest.dropWhile isWS

/-- Does a sentence mention `should`, `must` or `need`? -/
def hasKeyword (cs : List Char) : Bool :=
  containsSub cs "should".data || containsSub cs "must".data || containsSub cs "need".data

/-- Embeds `extractRequirements(body)` (the source checks the whole body for a
keyword first, then filters the split sentences, cleans each survivor, keeps
it only when longer than 10 characters, and finally `slice(0, 5)`). -/
def extractRequirements (body : String) : List String :=
  if hasKeyword body.data then
    ((splitRuns body.data).filterMap (fun sentence =>
      if hasKeyword sentence then
        let cleanSentence := stripLeadWord (jsTrim sentence)
        if 10 < cleanSentence.length then some (String.mk cleanSentence) else none
      else none)).take 5
  else []

/-! ### Chart URL builders (utils.ts and github-reporter-tool.ts)

`JSON.stringify` of the `chartConfig` object literals is embedded as explicit
string building: keys appear in insertion order with no added whitespace,
exactly as `JSON.stringify` prints them.  `encodeURIComponent` is embedded
character by character. -/

/-- Uppercase hexadecimal digit (for percent escapes). -/
def hexUpper (n : Nat) : Char :=
  if n < 10 then Char.ofNat (48 + n) else Char.ofNat (55 + n)

/-- Percent escape `%XX` of one byte. -/
def pctByte (b : Nat) : List Char := ['%', hexUpper (b / 16), hexUpper (b % 16)]

/-- UTF-8 bytes of a Unicode scalar value. -/
def utf8Bytes (v : Nat) : List Nat :=
  if v < 128 then [v]
  else if v < 2048 then [192 + v / 64, 128 + v % 64]
  else if v < 65536 then [224 + v / 4096, 128 + v / 64 % 64, 128 + v % 64]
  else [240 + v / 262144, 128 + v / 4096 % 64, 128 + v / 64 % 64, 128 + v % 64]

/-- Characters `encodeURIComponent` leaves unescaped:
`A-Z a-z 0-9 - _ . ! ~ * ' ( )`. -/
def isUnreserved (c : Char) : Bool :=
  c.isAlphanum || c = '-' || c = '_' || c = '.' || c = '!' || c = '~' ||
    c = '*' || c.toNat = 39 || c = '(' || c = ')'

/-- Embeds `encodeURIComponent` on a single character. -/
def encChar (c : Char) : List Char :=
  if isUnreserved c then [c] else ((utf8Bytes c.toNat).map pctByte).flatten

/-- Embeds `encodeURIComponent` on a character list. -/
def encList : List Char → List Char
  | [] => []
  | c :: cs => encChar c ++ encList cs

/-- Embeds `encodeURIComponent` on a string. -/
def encStr (s : String) : String := String.mk (encList s.data)

/-- One character of a `JSON.stringify`d string literal. -/
def jsonEscChar (c : Char) : List Char :=
  if c = '"' then ['\\', '"']
  else if c = '\\' then ['\\', '\\']
  else if c = '\x08' then ['\\', 'b']
  else if c = '\t' then ['\\', 't']
  else if c = '\n' then ['\\', 'n']
  else if c = '\x0c' then ['\\', 'f']
  else if c = '\x0d' then ['\\', 'r']
  else if c.toNat < 32 then
    ['\\', 'u', '0', '0',
      (if c.toNat / 16 < 10 then Char.ofNat (48 + c.toNat / 16) else Char.ofNat (87 + c.toNat / 16)),
      (if c.toNat % 16 < 10 then Char.ofNat (48 + c.toNat % 16) else Char.ofNat (87 + c.toNat % 16))]
  else [c]

/-- Body of a `JSON.stringify`d string literal. -/
def jsonEscList : List Char → List Char
  | [] => []
  | c :: cs => jsonEscChar c ++ jsonEscList cs

/-- Embeds `JSON.stringify` of a string. -/
def jsonStr (s : String) : String := "\"" ++ String.mk (jsonEscList s.data) ++ "\""

/-- Comma-joined list body. -/
def joinComma : List String → String
  | [] => ""
  | [x] => x
  | x :: y :: xs => x ++ "," ++ joinComma (y :: xs)

/-- Embeds `JSON.stringify` of an array, given the serialized elements. -/
def jsonArr (elems : List String) : String := "[" ++ joinComma elems ++ "]"

/-- A JavaScript number input: a finite value or `NaN`/`±Infinity`. -/
inductive JSNum where
  | num (v : Int) : JSNum
  | nonFinite : JSNum
deriving Repr, DecidableEq

/-- Embeds `(typeof x === 'number' && isFinite(x) ? x : 0)`. -/
def safeVal : JSNum → Int
  | .num v => v
  | .nonFinite => 0

/-- The argument object of `generateBarChartUrl`. -/
structure BarInput where
  stars : JSNum
  forks : JSNum
  openIssues : JSNum
  openPRs : JSNum
  closedPRs : JSNum
deriving Repr, DecidableEq

/-- Prefix of `JSON.stringify(chartConfig)` of the bar chart, up to the `data:` array. -/
def barChartPre : String :=
  "\x7b\"type\":\"bar\",\"data\":\x7b\"labels\":[\"Stars\",\"Forks\",\"Open Issues\",\"Open PRs\",\"Closed PRs\"],\"datasets\":[\x7b\"label\":\"GitHub Repo Stats\",\"backgroundColor\":[\"#facc15\",\"#38bdf8\",\"#f87171\",\"#34d399\",\"#a78bfa\"],\"data\":"

/-- Suffix of `JSON.stringify(chartConfig)` of the bar chart, after the `data:` array. -/
def barChartPost : String :=
  "\x7d]\x7d,\"options\":\x7b\"plugins\":\x7b\"legend\":\x7b\"display\":false\x7d,\"title\":\x7b\"display\":true,\"text\":\"Repository Statistics\"\x7d\x7d,\"scales\":\x7b\"y\":\x7b\"beginAtZero\":true\x7d\x7d\x7d\x7d"

/-- Embeds `JSON.stringify(chartConfig)` for the bar chart with data `d`. -/
def barChartConfigJson (d : List Int) : String :=
  barChartPre ++ jsonArr (d.map toString) ++ barChartPost

/-- Embeds `generateBarChartUrl` (utils.ts). -/
def generateBarChartUrl (x : BarInput) : String :=
  let safeData := [x.stars, x.forks, x.openIssues, x.openPRs, x.closedPRs].map safeVal
  if safeData.all (fun v => v == 0) then ""
  else
    "https://quickchart.io/chart?c=" ++ encStr (barChartConfigJson safeData) ++
      "&width=500&height=220"

/-- Embeds `generateBarChartUrl` (github-reporter-tool.ts): identical except the URL
has no `width`/`height` query parameters. -/
def generateBarChartUrlReporter (x : BarInput) : String :=
  let safeData := [x.stars, x.forks, x.openIssues, x.openPRs, x.closedPRs].map safeVal
  if safeData.all (fun v => v == 0) then ""
  else "https://quickchart.io/chart?c=" ++ encStr (barChartConfigJson safeData)

/-- The 20-entry palette of `getColorPalette` (utils.ts). -/
def baseColors : List String :=
  ["#facc15", "#38bdf8", "#f87171", "#34d399", "#a78bfa",
   "#fb7185", "#fbbf24", "#10b981", "#8b5cf6", "#06b6d4",
   "#eab308", "#0ea5e9", "#ef4444", "#22d3ee", "#6366f1",
   "#f472b6", "#fde68a", "#4ade80", "#c084fc", "#7dd3fc"]

/-- Embeds `getColorPalette(n)` (utils.ts): `colors[i] = baseColors[i % baseColors.length]`. -/
def getColorPalette (n : Nat) : List String :=
  (List.range n).map (fun i => baseColors.getD (i % baseColors.length) "")

/-- The 10-entry inline palette of `generatePieChartUrl` in
github-reporter-tool.ts. -/
def reporterColors : List String :=
  ["#facc15", "#38bdf8", "#f87171", "#34d399", "#a78bfa",
   "#fb7185", "#fbbf24", "#10b981", "#8b5cf6", "#06b6d4"]

/-- Embeds `JSON.stringify` of the shared pie-chart `options` object. -/
def pieOptionsJson : String :=
  ",\"options\":\x7b\"plugins\":\x7b\"legend\":\x7b\"display\":true,\"position\":\"bottom\"\x7d,\"title\":\x7b\"display\":true,\"text\":\"Language Distribution\"\x7d,\"datalabels\":\x7b\"display\":false\x7d,\"tooltip\":\x7b\"enabled\":false\x7d\x7d,\"responsive\":true,\"maintainAspectRatio\":false,\"interaction\":\x7b\"mode\":null\x7d\x7d\x7d"

/-- Embeds `JSON.stringify(chartConfig)` for the utils.ts pie chart. -/
def pieConfigJson (names : List String) (bytes : List Nat) : String :=
  "\x7b\"type\":\"pie\",\"data\":\x7b\"labels\":" ++ jsonArr (names.map jsonStr) ++
    ",\"datasets\":[\x7b\"data\":" ++ jsonArr (bytes.map toString) ++
    ",\"backgroundColor\":" ++ jsonArr ((getColorPalette names.length).map jsonStr) ++
    ",\"borderWidth\":0\x7d]\x7d" ++ pieOptionsJson

/-- Embeds `generatePieChartUrl` (utils.ts).  A language mapping is its
insertion-ordered entry list; `Object.keys`/`Object.values` are the two
projections. -/
def generatePieChartUrl (languages : List (String × Nat)) : String :=
  let languageNames := languages.map Prod.fst
  let languageBytes := languages.map Prod.snd
  if languageNames.isEmpty || languageBytes.isEmpty then ""
  else
    "https://quickchart.io/chart?c=" ++ encStr (pieConfigJson languageNames languageBytes) ++
      "&width=500&height=220"

/-- Embeds `JSON.stringify(chartConfig)` for the github-reporter-tool.ts pie chart:
colors are `colors.slice(0, languageNames.length)` from the 10-entry inline
palette, with `borderWidth: 2` and a white border. -/
def pieConfigJsonReporter (names : List String) (bytes : List Nat) : String :=
  "\x7b\"type\":\"pie\",\"data\":\x7b\"labels\":" ++ jsonArr (names.map jsonStr) ++
    ",\"datasets\":[\x7b\"data\":" ++ jsonArr (bytes.map toString) ++
    ",\"backgroundColor\":" ++ jsonArr ((reporterColors.take names.length).map jsonStr) ++
    ",\"borderWidth\":2,\"borderColor\":\"#ffffff\"\x7d]\x7d" ++ pieOptionsJson

/-- Embeds `generatePieChartUrl` (github-reporter-tool.ts). -/
def generatePieChartUrlReporter (languages : List (String × Nat)) : String :=
  let languageNames := languages.map Prod.fst
  let languageBytes := languages.map Prod.snd
  if languageNames.isEmpty || languageBytes.isEmpty then ""
  else "https://quickchart.io/chart?c=" ++ encStr (pieConfigJsonReporter languageNames languageBytes)

/-! ### Specification-side definitions

These follow the wording of the spec/claims (not the source) and are compared
against the embedded source functions in the theorems below. -/

/-- A `[^/]+`-compatible segment: no `/` at all. -/
def noSlash (l : List Char) : Bool := l.all (fun c => c != '/')

/-- No JavaScript line terminator (LF, CR, U+2028, U+2029): the characters
`.` can match in the optional path suffix are exactly the others. -/
def noLineTerm (l : List Char) : Bool := l.all (fun c => !(isLineTerm c))

/-- The optional path suffix of the claim's URL shape: nothing, or `/`
followed by text free of line terminators. -/
def TailOk (tail : List Char) : Prop :=
  tail = [] ∨ ∃ t, tail = '/' :: t ∧ noLineTerm t = true

/-- Claim C1's URL shape, spelled from the spec's words:
`http(s)://github.com/<owner>/<repo>` with non-empty slash-free segments,
optionally followed by a path suffix. -/
def ValidShape (url : String) : Prop :=
  ∃ sch owner repoSeg tail : List Char,
    (sch = "http://".data ∨ sch = "https://".data) ∧
    owner ≠ [] ∧ noSlash owner = true ∧
    repoSeg ≠ [] ∧ noSlash repoSeg = true ∧
    TailOk tail ∧
    url.data = sch ++ ("github.com/".data ++ (owner ++ '/' :: (repoSeg ++ tail)))

/-- Deduplication keeping the first appearance of each key, in order — the
claim's "orders labels by the month's first appearance in the input". -/
def firstAppearance : List String → List String
  | [] => []
  | k :: ks => k :: (firstAppearance ks).filter (fun k' => k' != k)

/-- Total number of commits of the weeks falling in month `k` — the claim's
"sums the totals within each month". -/
def sumFor (ws : List WeekEntry) (k : String) : Nat :=
  ((ws.filter (fun w => monthKey w.week == k)).map WeekEntry.total).sum

/-- A failed secondary call in claim C2's sense: a network error or a
non-2xx response. -/
def secondaryFails {α : Type} : FetchResult α → Prop
  | .netErr _ => True
  | .resp s _ _ => respOk s = false

/-- Claim C9's pipeline exactly as stated: split on sentence terminators,
keep the sentences containing a keyword, strip one leading word token,
discard sentences under 10 characters after stripping (so keep length ≥ 10),
cap at 5, preserving order. -/
def extractRequirementsClaim (body : String) : List String :=
  ((((splitRuns body.data).filter hasKeyword).map
      (fun s => String.mk (stripLeadWord (jsTrim s)))).filter
    (fun c => 10 ≤ c.length)).take 5

/-- Claim C9's pipeline with the one forced correction: sentences of 10
characters or fewer after stripping are discarded (keep only length > 10). -/
def extractRequirementsAmended (body : String) : List String :=
  ((((splitRuns body.data).filter hasKeyword).map
      (fun s => String.mk (stripLeadWord (jsTrim s)))).filter
    (fun c => 10 < c.length)).take 5

/-- A concrete language mapping with 21 entries (for claim C6's
counterexample against the github-reporter-tool.ts pie builder). -/
def langs21 : List (String × Nat) :=
  (List.range 21).map (fun i => ("L" ++ toString i, i + 1))

/-! ## Lemmas and theorems -/

/-! ### Substring search -/

theorem containsSub_nil (l : List Char) : containsSub l [] = true := by
  cases l <;> simp [containsSub, listStartsWith]

theorem listStartsWith_append {a n : List Char} (b : List Char)
    (h : listStartsWith a n = true) : listStartsWith (a ++ b) n = true := by
  induction a generalizing n with
  | nil =>
    cases n with
    | nil => cases b <;> simp [listStartsWith]
    | cons m ms => simp [listStartsWith] at h
  | cons c cs ih =>
    cases n with
    | nil => simp [listStartsWith]
    | cons m ms =>
      simp only [listStartsWith, List.cons_append, Bool.and_eq_true, decide_eq_true_eq] at h ⊢
      exact ⟨h.1, ih h.2⟩

theorem containsSub_append_right {b n : List Char} (a : List Char)
    (h : containsSub b n = true) : containsSub (a ++ b) n = true := by
  induction a with
  | nil => simpa using h
  | cons c cs ih =>
    simp only [List.cons_append, containsSub, Bool.or_eq_true]
    exact Or.inr ih

theorem containsSub_append_left {a n : List Char} (b : List Char)
    (h : containsSub a n = true) : containsSub (a ++ b) n = true := by
  induction a with
  | nil =>
    have hn : n = [] := by
      cases n with
      | nil => rfl
      | cons m ms => simp [containsSub] at h
    subst hn
    exact containsSub_nil b
  | cons c cs ih =>
    simp only [containsSub, Bool.or_eq_true] at h
    simp only [List.cons_append, containsSub, Bool.or_eq_true]
    cases h with
    | inl hs => exact Or.inl (listStartsWith_append b hs)
    | inr hc => exact Or.inr (ih hc)

theorem containsSub_cons {cs n : List Char} (c : Char)
    (h : containsSub cs n = true) : containsSub (c :: cs) n = true :=
  containsSub_append_right [c] h

theorem jsIncludes_append_left {a n : String} (b : String)
    (h : jsIncludes a n = true) : jsIncludes (a ++ b) n = true :=
  containsSub_append_left b.data h

theorem jsIncludes_append_right {b n : String} (a : String)
    (h : jsIncludes b n = true) : jsIncludes (a ++ b) n = true :=
  containsSub_append_right a.data h

/-! ### Literal stripping -/

theorem dropLit_eq (p cs r : List Char) : dropLit p cs = some r ↔ cs = p ++ r := by
  induction p generalizing cs with
  | nil => simp [dropLit]
  | cons a ps ih =>
    cases cs with
    | nil => simp [dropLit]
    | cons c cs' =>
      by_cases h : c = a
      · subst h; simp [dropLit, ih]
      · simp [dropLit, h]

/-! ### takeWhile / dropWhile -/

theorem takeWhile_all {p : Char → Bool} {xs : List Char}
    (h : ∀ a ∈ xs, p a = true) : xs.takeWhile p = xs := by
  induction xs with
  | nil => rfl
  | cons x xs ih =>
    rw [List.takeWhile_cons, if_pos (h x (List.mem_cons_self x xs))]
    exact congrArg _ (ih fun a ha => h a (List.mem_cons_of_mem x ha))

theorem dropWhile_all {p : Char → Bool} {xs : List Char}
    (h : ∀ a ∈ xs, p a = true) : xs.dropWhile p = [] := by
  induction xs with
  | nil => rfl
  | cons x xs ih =>
    rw [List.dropWhile_cons, if_pos (h x (List.mem_cons_self x xs))]
    exact ih fun a ha => h a (List.mem_cons_of_mem x ha)

theorem takeWhile_append_cons {p : Char → Bool} {xs : List Char} {y : Char} (ys : List Char)
    (h1 : ∀ a ∈ xs, p a = true) (h2 : p y = false) :
    (xs ++ y :: ys).takeWhile p = xs := by
  induction xs with
  | nil => simp [List.takeWhile_cons, h2]
  | cons x xs ih =>
    rw [List.cons_append, List.takeWhile_cons, if_pos (h1 x (List.mem_cons_self x xs))]
    exact congrArg _ (ih fun a ha => h1 a (List.mem_cons_of_mem x ha))

theorem dropWhile_append_cons {p : Char → Bool} {xs : List Char} {y : Char} (ys : List Char)
    (h1 : ∀ a ∈ xs, p a = true) (h2 : p y = false) :
    (xs ++ y :: ys).dropWhile p = y :: ys := by
  induction xs with
  | nil => simp [List.dropWhile_cons, h2]
  | cons x xs ih =>
    rw [List.cons_append, List.dropWhile_cons, if_pos (h1 x (List.mem_cons_self x xs))]
    exact ih fun a ha => h1 a (List.mem_cons_of_mem x ha)

theorem dropWhile_head_false {p : Char → Bool} {l : List Char} {c : Char} {t : List Char}
    (h : l.dropWhile p = c :: t) : p c = false := by
  induction l with
  | nil => simp [List.dropWhile] at h
  | cons x xs ih =>
    rw [List.dropWhile_cons] at h
    by_cases hp : p x
    · rw [if_pos hp] at h; exact ih h
    · rw [if_neg hp] at h
      cases h
      simpa using hp

/-! ### URL parser lemmas -/

theorem stripDotGit_eq_nil {l : List Char} (h : l ≠ []) :
    stripDotGit l = [] ↔ l = ".git".data := by
  unfold stripDotGit
  split
  · rename_i r heq
    have hl : l = r.reverse ++ ['.', 'g', 'i', 't'] := by
      have := congrArg List.reverse heq
      simpa using this
    constructor
    · intro hr
      have : r = [] := by simpa using hr
      subst this
      simpa using hl
    · intro hgit
      rw [hgit] at hl
      have : r.reverse = [] := by
        have h4 : (".git".data : List Char) = [] ++ ['.', 'g', 'i', 't'] := by decide
        rw [h4] at hl
        exact (List.append_left_injective _ hl).symm ▸ rfl
      simpa using this
  · rename_i hno
    constructor
    · intro hl; exact absurd hl h
    · intro hgit
      exfalso
      exact hno [] (by rw [hgit]; decide)

theorem parseCore_complete {owner repoSeg tail : List Char}
    (h1 : owner ≠ []) (h2 : noSlash owner = true)
    (h3 : repoSeg ≠ []) (h4 : noSlash repoSeg = true) (h5 : TailOk tail) :
    parseCore (owner ++ '/' :: (repoSeg ++ tail)) = some (owner, repoSeg) := by
  have ho : ∀ c ∈ owner, (c != '/') = true := List.all_eq_true.mp h2
  have hr : ∀ c ∈ repoSeg, (c != '/') = true := List.all_eq_true.mp h4
  have hslash : (('/' : Char) != '/') = false := by simp
  simp only [parseCore]
  rw [takeWhile_append_cons _ ho hslash, dropWhile_append_cons _ ho hslash, if_neg h1]
  dsimp only
  cases h5 with
  | inl htail =>
    subst htail
    rw [List.append_nil, takeWhile_all hr, dropWhile_all hr, if_neg h3]
  | inr htail =>
    obtain ⟨t, rfl, hnn⟩ := htail
    rw [takeWhile_append_cons _ hr hslash, dropWhile_append_cons _ hr hslash, if_neg h3]
    simp only [noLineTerm] at hnn
    dsimp only
    rw [hnn]
    rfl

theorem parseCore_sound {cs o r : List Char} (h : parseCore cs = some (o, r)) :
    o ≠ [] ∧ noSlash o = true ∧ r ≠ [] ∧ noSlash r = true ∧
      ∃ tail, TailOk tail ∧ cs = o ++ '/' :: (r ++ tail) := by
  simp only [parseCore] at h
  by_cases h0 : cs.takeWhile (fun c => c != '/') = []
  · rw [if_pos h0] at h; cases h
  rw [if_neg h0] at h
  cases hdw : cs.dropWhile (fun c => c != '/') with
  | nil => rw [hdw] at h; cases h
  | cons d rest2 =>
    rw [hdw] at h
    dsimp only at h
    have hd : d = '/' := by
      have := dropWhile_head_false hdw
      simpa using this
    subst hd
    by_cases h1 : rest2.takeWhile (fun c => c != '/') = []
    · rw [if_pos h1] at h; cases h
    rw [if_neg h1] at h
    have hcs : cs = cs.takeWhile (fun c => c != '/') ++ '/' :: rest2 := by
      rw [← hdw]; exact (List.takeWhile_append_dropWhile _ _).symm
    have hrest2 : rest2 = rest2.takeWhile (fun c => c != '/') ++
        rest2.dropWhile (fun c => c != '/') :=
      (List.takeWhile_append_dropWhile _ _).symm
    have hto : ∀ a ∈ cs.takeWhile (fun c => c != '/'), (a != '/') = true := by
      intro a ha
      have := List.mem_takeWhile_imp ha
      simpa using this
    have htr : ∀ a ∈ rest2.takeWhile (fun c => c != '/'), (a != '/') = true := by
      intro a ha
      have := List.mem_takeWhile_imp ha
      simpa using this
    cases hdw2 : rest2.dropWhile (fun c => c != '/') with
    | nil =>
      rw [hdw2] at h
      cases h
      rw [hdw2, List.append_nil] at hrest2
      refine ⟨h0, List.all_eq_true.mpr hto, h1, List.all_eq_true.mpr htr, [], Or.inl rfl, ?_⟩
      rw [List.append_nil, ← hrest2]
      exact hcs
    | cons e t =>
      rw [hdw2] at h
      dsimp only at h
      have he : e = '/' := by
        have := dropWhile_head_false hdw2
        simpa using this
      subst he
      rw [hdw2] at hrest2
      by_cases hnl : t.all (fun c => !(isLineTerm c)) = true
      · rw [if_pos hnl] at h
        cases h
        refine ⟨h0, List.all_eq_true.mpr hto, h1, List.all_eq_true.mpr htr,
          '/' :: t, Or.inr ⟨t, rfl, hnl⟩, ?_⟩
        rw [← hrest2]
        exact hcs
      · rw [if_neg hnl] at h; cases h

theorem optS_cons_s (r : List Char) : optS ('s' :: r) = r := rfl

theorem optS_cons_ne {c : Char} (r : List Char) (hc : c ≠ 's') : optS (c :: r) = c :: r := by
  unfold optS
  split
  · rename_i heq
    rw [List.cons.injEq] at heq
    exact absurd heq.1 hc
  · rfl

theorem parseGitHubUrl_shift_http (M : List Char) :
    parseGitHubUrl (String.mk ("http://github.com/".data ++ M)) =
      match parseCore M with
      | none => none
      | some x => some ⟨String.mk x.1, String.mk (stripDotGit x.2)⟩ := by
  unfold parseGitHubUrl
  have h1 : dropLit "http".data (String.mk ("http://github.com/".data ++ M)).data =
      some (':' :: ("//github.com/".data ++ M)) := by
    rw [dropLit_eq]
    rfl
  rw [h1]
  dsimp only
  rw [optS_cons_ne _ (by decide)]
  have h2 : dropLit "://github.com/".data (':' :: ("//github.com/".data ++ M)) = some M := by
    rw [dropLit_eq]
    rfl
  rw [h2]
  dsimp only
  cases parseCore M with
  | none => rfl
  | some x => rfl

theorem parseGitHubUrl_shift_https (M : List Char) :
    parseGitHubUrl (String.mk ("https://github.com/".data ++ M)) =
      match parseCore M with
      | none => none
      | some x => some ⟨String.mk x.1, String.mk (stripDotGit x.2)⟩ := by
  unfold parseGitHubUrl
  have h1 : dropLit "http".data (String.mk ("https://github.com/".data ++ M)).data =
      some ('s' :: (':' :: ("//github.com/".data ++ M))) := by
    rw [dropLit_eq]
    rfl
  rw [h1]
  dsimp only
  rw [optS_cons_s]
  have h2 : dropLit "://github.com/".data (':' :: ("//github.com/".data ++ M)) = some M := by
    rw [dropLit_eq]
    rfl
  rw [h2]
  dsimp only
  cases parseCore M with
  | none => rfl
  | some x => rfl

theorem parseGitHubUrl_sound {url : String} {rid : RepoIdentity}
    (h : parseGitHubUrl url = some rid) :
    ∃ sch owner repoSeg tail : List Char,
      (sch = "http://".data ∨ sch = "https://".data) ∧
      owner ≠ [] ∧ noSlash owner = true ∧ repoSeg ≠ [] ∧ noSlash repoSeg = true ∧
      TailOk tail ∧
      url.data = sch ++ ("github.com/".data ++ (owner ++ '/' :: (repoSeg ++ tail))) ∧
      rid = ⟨String.mk owner, String.mk (stripDotGit repoSeg)⟩ := by
  unfold parseGitHubUrl at h
  cases hd1 : dropLit "http".data url.data with
  | none => rw [hd1] at h; cases h
  | some r1 =>
    rw [hd1] at h
    dsimp only at h
    have hurl : url.data = "http".data ++ r1 := (dropLit_eq _ _ _).mp hd1
    cases r1 with
    | nil =>
      simp [optS, dropLit] at h
    | cons c r =>
      by_cases hc : c = 's'
      · subst hc
        rw [optS_cons_s] at h
        cases hd2 : dropLit "://github.com/".data r with
        | none => rw [hd2] at h; cases h
        | some r3 =>
          rw [hd2] at h
          dsimp only at h
          have hr : r = "://github.com/".data ++ r3 := (dropLit_eq _ _ _).mp hd2
          cases hp : parseCore r3 with
          | none => rw [hp] at h; cases h
          | some x =>
            rw [hp] at h
            cases h
            obtain ⟨ho1, ho2, ho3, ho4, tail, htail, hr3⟩ := parseCore_sound hp
            refine ⟨"https://".data, x.1, x.2, tail, Or.inr rfl, ho1, ho2, ho3, ho4, htail, ?_, rfl⟩
            rw [hurl, hr, hr3]
            rfl
      · rw [optS_cons_ne r hc] at h
        cases hd2 : dropLit "://github.com/".data (c :: r) with
        | none => rw [hd2] at h; cases h
        | some r3 =>
          rw [hd2] at h
          dsimp only at h
          have hr : c :: r = "://github.com/".data ++ r3 := (dropLit_eq _ _ _).mp hd2
          cases hp : parseCore r3 with
          | none => rw [hp] at h; cases h
          | some x =>
            rw [hp] at h
            cases h
            obtain ⟨ho1, ho2, ho3, ho4, tail, htail, hr3⟩ := parseCore_sound hp
            refine ⟨"http://".data, x.1, x.2, tail, Or.inl rfl, ho1, ho2, ho3, ho4, htail, ?_, rfl⟩
            rw [hurl, hr, hr3]
            rfl

/-- Claim C1 counterexample: the claim as stated is false on the code.  For
the input `https://github.com/a/.git` the parser does not throw and returns
an empty `repo` field (contradicting "both fields non-empty"); and for
`https://github.com/a/b/c\nd`, `https://github.com/a/b/\rx` and a path
suffix containing U+2028 — all of the claimed shape — the parser throws,
because the regex's `.` cannot match any JavaScript line terminator. -/
theorem parseGitHubUrl_claim_counterexample :
    parseGitHubUrl "https://github.com/a/.git" = some ⟨"a", ""⟩ ∧
    parseGitHubUrl "https://github.com/a/b/c\nd" = none ∧
    parseGitHubUrl "https://github.com/a/b/\rx" = none ∧
    parseGitHubUrl "https://github.com/a/b/x\u2028y" = none :=
  ⟨by decide, by decide, by decide, by decide⟩

/-- Claim C1 (amended): `parseGitHubUrl` succeeds exactly on strings of the
shape `http(s)://github.com/<owner>/<repoSeg>` (non-empty, slash-free
segments) optionally followed by `/` and a path suffix free of JavaScript
line terminators (LF, CR, U+2028, U+2029), and then returns `{owner, repo}`
with one trailing `.git` stripped from the repo segment.  The returned
`owner` is always non-empty; the returned `repo` is non-empty except when
the repo segment is exactly `.git` (then it is empty). -/
theorem parseGitHubUrl_spec :
    (∀ url : String, (parseGitHubUrl url).isSome ↔ ValidShape url) ∧
    (∀ owner repoSeg tail : List Char,
      owner ≠ [] → noSlash owner = true → repoSeg ≠ [] → noSlash repoSeg = true → TailOk tail →
      parseGitHubUrl (String.mk ("http://github.com/".data ++ (owner ++ '/' :: (repoSeg ++ tail)))) =
        some ⟨String.mk owner, String.mk (stripDotGit repoSeg)⟩) ∧
    (∀ owner repoSeg tail : List Char,
      owner ≠ [] → noSlash owner = true → repoSeg ≠ [] → noSlash repoSeg = true → TailOk tail →
      parseGitHubUrl (String.mk ("https://github.com/".data ++ (owner ++ '/' :: (repoSeg ++ tail)))) =
        some ⟨String.mk owner, String.mk (stripDotGit repoSeg)⟩) ∧
    (∀ url : String, ∀ rid : RepoIdentity, parseGitHubUrl url = some rid → rid.owner ≠ "") ∧
    (∀ repoSeg : List Char, repoSeg ≠ [] → (stripDotGit repoSeg = [] ↔ repoSeg = ".git".data)) := by
  have complete_http : ∀ owner repoSeg tail : List Char,
      owner ≠ [] → noSlash owner = true → repoSeg ≠ [] → noSlash repoSeg = true → TailOk tail →
      parseGitHubUrl (String.mk ("http://github.com/".data ++ (owner ++ '/' :: (repoSeg ++ tail)))) =
        some ⟨String.mk owner, String.mk (stripDotGit repoSeg)⟩ := by
    intro owner repoSeg tail h1 h2 h3 h4 h5
    rw [parseGitHubUrl_shift_http, parseCore_complete h1 h2 h3 h4 h5]
  have complete_https : ∀ owner repoSeg tail : List Char,
      owner ≠ [] → noSlash owner = true → repoSeg ≠ [] → noSlash repoSeg = true → TailOk tail →
      parseGitHubUrl (String.mk ("https://github.com/".data ++ (owner ++ '/' :: (repoSeg ++ tail)))) =
        some ⟨String.mk owner, String.mk (stripDotGit repoSeg)⟩ := by
    intro owner repoSeg tail h1 h2 h3 h4 h5
    rw [parseGitHubUrl_shift_https, parseCore_complete h1 h2 h3 h4 h5]
  refine ⟨?_, complete_http, complete_https, ?_, ?_⟩
  · intro url
    constructor
    · intro hs
      obtain ⟨rid, h⟩ := Option.isSome_iff_exists.mp hs
      obtain ⟨sch, owner, repoSeg, tail, hsch, h1, h2, h3, h4, h5, hdata, _⟩ :=
        parseGitHubUrl_sound h
      exact ⟨sch, owner, repoSeg, tail, hsch, h1, h2, h3, h4, h5, hdata⟩
    · intro hv
      obtain ⟨sch, owner, repoSeg, tail, hsch, h1, h2, h3, h4, h5, hdata⟩ := hv
      cases url with
      | mk l =>
        have hl : l = sch ++ ("github.com/".data ++ (owner ++ '/' :: (repoSeg ++ tail))) := hdata
        subst hl
        cases hsch with
        | inl hhttp =>
          subst hhttp
          have e : ("http://".data ++ ("github.com/".data ++ (owner ++ '/' :: (repoSeg ++ tail))))
              = "http://github.com/".data ++ (owner ++ '/' :: (repoSeg ++ tail)) := rfl
          rw [e, complete_http owner repoSeg tail h1 h2 h3 h4 h5]
          rfl
        | inr hhttps =>
          subst hhttps
          have e : ("https://".data ++ ("github.com/".data ++ (owner ++ '/' :: (repoSeg ++ tail))))
              = "https://github.com/".data ++ (owner ++ '/' :: (repoSeg ++ tail)) := rfl
          rw [e, complete_https owner repoSeg tail h1 h2 h3 h4 h5]
          rfl
  · intro url rid h
    obtain ⟨sch, owner, repoSeg, tail, hsch, h1, h2, h3, h4, h5, hdata, hrid⟩ :=
      parseGitHubUrl_sound h
    subst hrid
    intro hco
    exact h1 (congrArg String.data hco)
  · intro repoSeg h
    exact stripDotGit_eq_nil h

/-- Witness for `parseGitHubUrl_spec`: instantiating the https clause at
owner `foo`, repo segment `bar.git`, empty suffix gives the parse of
`https://github.com/foo/bar.git` with the `.git` stripped. -/
theorem parseGitHubUrl_spec_witness :
    parseGitHubUrl "https://github.com/foo/bar.git" = some ⟨"foo", "bar"⟩ := by
  have h := parseGitHubUrl_spec.2.2.1 "foo".data "bar.git".data []
    (by decide) (by decide) (by decide) (by decide) (Or.inl rfl)
  exact h

/-- Claim C2: `getGitHubRepoStats` maps a primary 404 to
`RepositoryNotFoundError`, a primary 403 to `RateLimitedError` and any other
primary non-2xx to `UpstreamError`; when the primary call succeeds, any
failure (network error or non-2xx) of the contributors or pull-requests call
is swallowed, the corresponding field defaults to `[]` /
`{open: 0, closed: 0, total: 0}`, and the fetcher still returns a complete
statistics record without throwing. -/
theorem getGitHubRepoStats_claim :
    ∀ (url : String) (rid : RepoIdentity), parseGitHubUrl url = some rid →
      (∀ st meta c p, getGitHubRepoStats url (.resp 404 st meta) c p =
        .error (.repositoryNotFound rid.owner rid.repo)) ∧
      (∀ st meta c p, getGitHubRepoStats url (.resp 403 st meta) c p = .error .rateLimited) ∧
      (∀ s st meta c p, respOk s = false → s ≠ 404 → s ≠ 403 →
        getGitHubRepoStats url (.resp s st meta) c p = .error (.upstream s st)) ∧
      (∀ s st meta c p, respOk s = true →
        ∃ out, getGitHubRepoStats url (.resp s st meta) c p = .ok out ∧
          (secondaryFails c → out.contributors = []) ∧
          (secondaryFails p → out.pullRequests = ⟨0, 0, 0⟩)) := by
  intro url rid h
  refine ⟨?_, ?_, ?_, ?_⟩
  · intro st meta c p
    simp [getGitHubRepoStats, h, respOk]
  · intro st meta c p
    simp [getGitHubRepoStats, h, respOk]
  · intro s st meta c p hok h404 h403
    simp [getGitHubRepoStats, h, hok, h404, h403]
  · intro s st meta c p hok
    have hmain : getGitHubRepoStats url (.resp s st meta) c p =
        .ok ⟨⟨meta.name, meta.full_name, meta.description, meta.ownerLogin, meta.ownerType⟩,
          ⟨meta.stargazers_count, meta.forks_count, meta.open_issues_count,
            meta.watchers_count, meta.language⟩,
          ((fetchOr [] c).take 3).map (fun cc => ⟨cc.login, cc.contributions, cc.html_url⟩),
          ⟨meta.pushed_at, meta.updated_at, meta.created_at⟩,
          ⟨((fetchOr [] p).filter (fun pr => pr.state = "open")).length,
            ((fetchOr [] p).filter (fun pr => pr.state = "closed")).length,
            ((fetchOr [] p).filter (fun pr => pr.state = "open")).length +
              ((fetchOr [] p).filter (fun pr => pr.state = "closed")).length⟩,
          meta.license,
          ⟨meta.isPrivate, meta.isArchived, meta.isDisabled⟩⟩ := by
      simp [getGitHubRepoStats, h, hok]
    refine ⟨_, hmain, ?_, ?_⟩
    · intro hc
      cases c with
      | netErr m => rfl
      | resp s' st' body =>
        have hf : respOk s' = false := hc
        simp [fetchOr, hf]
    · intro hp
      cases p with
      | netErr m => rfl
      | resp s' st' body =>
        have hf : respOk s' = false := hp
        simp [fetchOr, hf]

/-- Witness for `getGitHubRepoStats_claim` at concrete inputs: a 404 primary
response throws not-found, and a 200 primary with both secondary calls
failing (one network error, one HTTP 500) still yields a record with empty
contributors and zero PR counts. -/
theorem getGitHubRepoStats_claim_witness :
    (getGitHubRepoStats "https://github.com/a/b"
        (.resp 404 "Not Found" ⟨"b", "a/b", none, "a", "User", 0, 0, 0, 0, none, none,
          "", "", "", false, false, false⟩)
        (.netErr "x") (.netErr "y") = .error (.repositoryNotFound "a" "b")) ∧
    (∃ out, getGitHubRepoStats "https://github.com/a/b"
        (.resp 200 "OK" ⟨"b", "a/b", none, "a", "User", 1500, 200, 3, 7, none, none,
          "", "", "", false, false, false⟩)
        (.netErr "x") (.resp 500 "ISE" []) = .ok out ∧
      out.contributors = [] ∧ out.pullRequests = ⟨0, 0, 0⟩) := by
  have h := getGitHubRepoStats_claim "https://github.com/a/b" ⟨"a", "b"⟩ (by decide)
  constructor
  · exact h.1 "Not Found"
      ⟨"b", "a/b", none, "a", "User", 0, 0, 0, 0, none, none, "", "", "", false, false, false⟩
      (.netErr "x") (.netErr "y")
  · obtain ⟨out, hout, hc, hp⟩ := h.2.2.2 200 "OK"
      ⟨"b", "a/b", none, "a", "User", 1500, 200, 3, 7, none, none, "", "", "", false, false, false⟩
      (.netErr "x") (.resp 500 "ISE" []) (by decide)
    exact ⟨out, hout, hc trivial, hp (show respOk 500 = false from by decide)⟩

/-- Claim C3: without a token `getGoodFirstIssues` throws
`MissingCredentialsError` before any network call (the result is the same
error for every fetch outcome); with a token, a 404 / 403 / other non-2xx
response or an empty (or non-array) result does not throw and yields
`{issues: [], repo, owner}` plus a message, and the four messages are
pairwise distinct, distinguishing the not-found / rate-limited /
other-failure / no-issues cases. -/
theorem getGoodFirstIssues_claim :
    (∀ (url : String) (resp : FetchResult (Option (List RawIssue))),
      getGoodFirstIssues none url resp = .error .missingCredentials) ∧
    (∀ (tok url : String) (rid : RepoIdentity), parseGitHubUrl url = some rid →
      (∀ st b, getGoodFirstIssues (some tok) url (.resp 404 st b) =
        .ok ⟨[], rid.repo, rid.owner,
          some ("Repository '" ++ rid.owner ++ "/" ++ rid.repo ++ "' not found.")⟩) ∧
      (∀ st b, getGoodFirstIssues (some tok) url (.resp 403 st b) =
        .ok ⟨[], rid.repo, rid.owner,
          some "GitHub API rate limit exceeded or access denied."⟩) ∧
      (∀ s st b, respOk s = false → s ≠ 404 → s ≠ 403 →
        getGoodFirstIssues (some tok) url (.resp s st b) =
          .ok ⟨[], rid.repo, rid.owner,
            some ("Failed to fetch issues: " ++ toString s ++ " " ++ st)⟩) ∧
      (∀ s st, respOk s = true →
        getGoodFirstIssues (some tok) url (.resp s st none) =
          .ok ⟨[], rid.repo, rid.owner,
            some "There are currently no open 'good first issues' in this repository."⟩ ∧
        getGoodFirstIssues (some tok) url (.resp s st (some [])) =
          .ok ⟨[], rid.repo, rid.owner,
            some "There are currently no open 'good first issues' in this repository."⟩) ∧
      (∀ (s : Nat) (st : String),
        ("Repository '" ++ rid.owner ++ "/" ++ rid.repo ++ "' not found." ≠
          "GitHub API rate limit exceeded or access denied.") ∧
        ("Repository '" ++ rid.owner ++ "/" ++ rid.repo ++ "' not found." ≠
          "Failed to fetch issues: " ++ toString s ++ " " ++ st) ∧
        ("Repository '" ++ rid.owner ++ "/" ++ rid.repo ++ "' not found." ≠
          "There are currently no open 'good first issues' in this repository.") ∧
        ("GitHub API rate limit exceeded or access denied." ≠
          "Failed to fetch issues: " ++ toString s ++ " " ++ st) ∧
        ("GitHub API rate limit exceeded or access denied." ≠
          "There are currently no open 'good first issues' in this repository.") ∧
        ("Failed to fetch issues: " ++ toString s ++ " " ++ st ≠
          "There are currently no open 'good first issues' in this repository."))) := by
  constructor
  · intro url resp
    rfl
  · intro tok url rid h
    refine ⟨?_, ?_, ?_, ?_, ?_⟩
    · intro st b
      simp [getGoodFirstIssues, h, respOk]
    · intro st b
      simp [getGoodFirstIssues, h, respOk]
    · intro s st b hok h404 h403
      simp [getGoodFirstIssues, h, hok, h404, h403]
    · intro s st hok
      constructor
      · simp [getGoodFirstIssues, h, hok]
      · simp [getGoodFirstIssues, h, hok]
    · intro s st
      refine ⟨?_, ?_, ?_, ?_, ?_, ?_⟩
      · intro he
        have h' : ("Repository '" ++ rid.owner ++ "/" ++ rid.repo ++ "' not found.").data.head? =
            ("GitHub API rate limit exceeded or access denied." : String).data.head? :=
          congrArg (fun z : String => z.data.head?) he
        rw [show ("Repository '" ++ rid.owner ++ "/" ++ rid.repo ++
          "' not found.").data.head? = some 'R' from rfl] at h'
        exact absurd h' (by decide)
      · intro he
        have h' : ("Repository '" ++ rid.owner ++ "/" ++ rid.repo ++ "' not found.").data.head? =
            ("Failed to fetch issues: " ++ toString s ++ " " ++ st).data.head? :=
          congrArg (fun z : String => z.data.head?) he
        rw [show ("Repository '" ++ rid.owner ++ "/" ++ rid.repo ++
            "' not found.").data.head? = some 'R' from rfl,
          show ("Failed to fetch issues: " ++ toString s ++ " " ++ st).data.head? =
            some 'F' from rfl] at h'
        exact absurd h' (by decide)
      · intro he
        have h' : ("Repository '" ++ rid.owner ++ "/" ++ rid.repo ++ "' not found.").data.head? =
            ("There are currently no open 'good first issues' in this repository." :
              String).data.head? :=
          congrArg (fun z : String => z.data.head?) he
        rw [show ("Repository '" ++ rid.owner ++ "/" ++ rid.repo ++
          "' not found.").data.head? = some 'R' from rfl] at h'
        exact absurd h' (by decide)
      · intro he
        have h' : ("GitHub API rate limit exceeded or access denied." : String).data.head? =
            ("Failed to fetch issues: " ++ toString s ++ " " ++ st).data.head? :=
          congrArg (fun z : String => z.data.head?) he
        rw [show ("Failed to fetch issues: " ++ toString s ++ " " ++ st).data.head? =
          some 'F' from rfl] at h'
        exact absurd h' (by decide)
      · intro he
        exact absurd he (by decide)
      · intro he
        have h' : ("Failed to fetch issues: " ++ toString s ++ " " ++ st).data.head? =
            ("There are currently no open 'good first issues' in this repository." :
              String).data.head? :=
          congrArg (fun z : String => z.data.head?) he
        rw [show ("Failed to fetch issues: " ++ toString s ++ " " ++ st).data.head? =
          some 'F' from rfl] at h'
        exact absurd h' (by decide)

/-- Witness for `getGoodFirstIssues_claim` at concrete inputs: no token gives
the credentials error regardless of the (never-issued) fetch outcome; with a
token, a 404 yields the not-found message and a 200 with an empty array
yields the no-issues message. -/
theorem getGoodFirstIssues_claim_witness :
    getGoodFirstIssues none "https://github.com/a/b" (.resp 200 "OK" (some [])) =
      .error .missingCredentials ∧
    getGoodFirstIssues (some "tok") "https://github.com/a/b" (.resp 404 "Not Found" none) =
      .ok ⟨[], "b", "a", some "Repository 'a/b' not found."⟩ ∧
    getGoodFirstIssues (some "tok") "https://github.com/a/b" (.resp 200 "OK" (some [])) =
      .ok ⟨[], "b", "a",
        some "There are currently no open 'good first issues' in this repository."⟩ := by
  have h2 := getGoodFirstIssues_claim.2 "tok" "https://github.com/a/b" ⟨"a", "b"⟩ (by decide)
  refine ⟨getGoodFirstIssues_claim.1 _ _, ?_, (h2.2.2.2.1 200 "OK" (by decide)).2⟩
  exact h2.1 "Not Found" none

/-! ### Commit-activity aggregation lemmas -/

theorem firstAppearance_mem {k : String} : ∀ {l : List String},
    k ∈ firstAppearance l ↔ k ∈ l := by
  intro l
  induction l with
  | nil => simp [firstAppearance]
  | cons x xs ih =>
    simp only [firstAppearance, List.mem_cons, List.mem_filter]
    constructor
    · rintro (rfl | ⟨hk, _⟩)
      · exact Or.inl rfl
      · exact Or.inr (ih.mp hk)
    · rintro (rfl | hk)
      · exact Or.inl rfl
      · by_cases hx : k = x
        · exact Or.inl hx
        · exact Or.inr ⟨ih.mpr hk, by simpa using hx⟩

theorem firstAppearance_concat (l : List String) (k : String) :
    firstAppearance (l ++ [k]) =
      if k ∈ l then firstAppearance l else firstAppearance l ++ [k] := by
  induction l with
  | nil => simp [firstAppearance]
  | cons x xs ih =>
    simp only [List.cons_append, List.append_eq, firstAppearance]
    rw [ih]
    by_cases hk : k ∈ xs
    · rw [if_pos hk, if_pos (List.mem_cons_of_mem x hk)]
    · rw [if_neg hk]
      by_cases hx : k = x
      · subst hx
        rw [if_pos (List.mem_cons_self k xs)]
        simp [List.filter_append]
      · rw [if_neg (by simp [hx, hk])]
        simp [List.filter_append, hx]

theorem sumFor_concat (ws : List WeekEntry) (w : WeekEntry) (k : String) :
    sumFor (ws ++ [w]) k =
      sumFor ws k + (if monthKey w.week = k then w.total else 0) := by
  simp only [sumFor, List.filter_append, List.map_append, List.sum_append]
  by_cases hm : monthKey w.week = k
  · simp [hm]
  · simp [hm]

theorem bump_keys (acc : List (String × Nat)) (k : String) (v : Nat) :
    (bump acc k v).map Prod.fst =
      if k ∈ acc.map Prod.fst then acc.map Prod.fst else acc.map Prod.fst ++ [k] := by
  induction acc with
  | nil => simp [bump]
  | cons a rest ih =>
    obtain ⟨k', v'⟩ := a
    by_cases hk : k' = k
    · subst hk
      simp [bump]
    · simp only [bump, if_neg hk, List.map_cons]
      rw [ih]
      by_cases hmem : k ∈ rest.map Prod.fst
      · rw [if_pos hmem, if_pos (by simp [hmem])]
      · rw [if_neg hmem, if_neg (by simp [hmem, Ne.symm hk])]
        simp

theorem bump_lookup (acc : List (String × Nat)) (k k' : String) (v : Nat) :
    lookupVal (bump acc k v) k' = lookupVal acc k' + (if k' = k then v else 0) := by
  induction acc with
  | nil =>
    simp only [bump, lookupVal]
    by_cases hk : k' = k
    · simp [hk]
    · simp [hk]
  | cons a rest ih =>
    obtain ⟨ka, va⟩ := a
    by_cases hka : ka = k
    · subst hka
      by_cases hk' : k' = ka
      · subst hk'
        simp [bump, lookupVal]
      · simp [bump, lookupVal, hk']
    · by_cases hk' : k' = ka
      · subst hk'
        simp [bump, lookupVal, hka]
      · simp [bump, lookupVal, hka, hk', ih]

theorem aggregateMonthly_concat (ws : List WeekEntry) (w : WeekEntry) :
    aggregateMonthly (ws ++ [w]) =
      bump (aggregateMonthly ws) (monthKey w.week) w.total := by
  simp [aggregateMonthly, List.foldl_append]

theorem aggregateMonthly_inv (ws : List WeekEntry) :
    (aggregateMonthly ws).map Prod.fst =
      firstAppearance (ws.map (fun w => monthKey w.week)) ∧
    ∀ k, lookupVal (aggregateMonthly ws) k = sumFor ws k := by
  induction ws using List.reverseRecOn with
  | nil => exact ⟨rfl, fun k => rfl⟩
  | append_singleton xs x ih =>
    constructor
    · rw [aggregateMonthly_concat, bump_keys, ih.1, List.map_append, List.map_cons,
        List.map_nil, firstAppearance_concat]
      by_cases hmem : monthKey x.week ∈ xs.map (fun w => monthKey w.week)
      · rw [if_pos hmem, if_pos (firstAppearance_mem.mpr hmem)]
      · rw [if_neg hmem, if_neg (fun hc => hmem (firstAppearance_mem.mp hc))]
    · intro k
      rw [aggregateMonthly_concat, bump_lookup, ih.2 k, sumFor_concat]
      by_cases hm : monthKey x.week = k
      · simp [hm]
      · rw [if_neg hm, if_neg (Ne.symm hm)]

/-- Claim C4: `getRepoCommitActivity` returns the empty series whenever the
call fails or the response is not a non-empty array; otherwise it groups the
weekly totals into `YYYY-MM` month buckets derived from each week's Unix
timestamp, sums the totals within each month, and orders the labels by the
month's first appearance in the input.  (JavaScript `Date#getFullYear` /
`getMonth` are modelled for a UTC host.) -/
theorem getRepoCommitActivity_claim :
    (∀ m, getRepoCommitActivity (.netErr m) = ⟨[], []⟩) ∧
    (∀ s st b, respOk s = false → getRepoCommitActivity (.resp s st b) = ⟨[], []⟩) ∧
    (∀ s st, respOk s = true → getRepoCommitActivity (.resp s st none) = ⟨[], []⟩) ∧
    (∀ s st, respOk s = true → getRepoCommitActivity (.resp s st (some [])) = ⟨[], []⟩) ∧
    (∀ (s : Nat) (st : String) (ws : List WeekEntry), respOk s = true → ws ≠ [] →
      (getRepoCommitActivity (.resp s st (some ws))).labels =
        firstAppearance (ws.map (fun w => monthKey w.week)) ∧
      (getRepoCommitActivity (.resp s st (some ws))).data =
        (firstAppearance (ws.map (fun w => monthKey w.week))).map (sumFor ws)) := by
  refine ⟨fun m => rfl, ?_, ?_, ?_, ?_⟩
  · intro s st b hok
    simp [getRepoCommitActivity, hok]
  · intro s st hok
    simp [getRepoCommitActivity, hok]
  · intro s st hok
    simp [getRepoCommitActivity, hok]
  · intro s st ws hok hne
    cases ws with
    | nil => exact absurd rfl hne
    | cons w ws' =>
      have hinv := aggregateMonthly_inv (w :: ws')
      have hval : getRepoCommitActivity (.resp s st (some (w :: ws'))) =
          ⟨(aggregateMonthly (w :: ws')).map Prod.fst,
            ((aggregateMonthly (w :: ws')).map Prod.fst).map
              (lookupVal (aggregateMonthly (w :: ws')))⟩ := by
        simp [getRepoCommitActivity, hok]
      rw [hval]
      refine ⟨hinv.1, ?_⟩
      dsimp only
      rw [hinv.1]
      exact List.map_congr_left (fun k _ => hinv.2 k)

/-- Witness for `getRepoCommitActivity_claim`: two weekly entries
`{week: 1696118400, total: 5}` and `{week: 1696723200, total: 3}` both fall
in October 2023, so the series has the single label `"2023-10"` with
value 8. -/
theorem getRepoCommitActivity_claim_witness :
    (getRepoCommitActivity
      (.resp 200 "OK" (some [⟨1696118400, 5⟩, ⟨1696723200, 3⟩]))).labels = ["2023-10"] ∧
    (getRepoCommitActivity
      (.resp 200 "OK" (some [⟨1696118400, 5⟩, ⟨1696723200, 3⟩]))).data = [8] := by
  have h := getRepoCommitActivity_claim.2.2.2.2 200 "OK"
    [⟨1696118400, 5⟩, ⟨1696723200, 3⟩] (by decide) (by decide)
  exact ⟨h.1.trans (by decide), h.2.trans (by decide)⟩

/-- Claim C7 counterexample: the claim as stated is false on the code.  On
failure `fetchIssueDetails` returns the placeholder with title `"Issue #N"`
and no labels, but its body is the non-empty string
`"Unable to fetch issue details"`, not the empty body the claim asserts. -/
theorem fetchIssueDetails_claim_counterexample :
    fetchIssueDetails 42 (.netErr "boom") =
      ⟨"Issue #42", "Unable to fetch issue details", [], 0⟩ ∧
    (fetchIssueDetails 42 (.netErr "boom")).body ≠ "" := ⟨by decide, by decide⟩

/-- Claim C7 (amended): `fetchIssueDetails` never throws; for every failure
of the detail fetch (network error or non-2xx response) it returns the
placeholder record with title `"Issue #N"` (N the requested issue number),
the fixed body `"Unable to fetch issue details"`, no labels and zero
comments. -/
theorem fetchIssueDetails_placeholder :
    ∀ (n : Nat) (resp : FetchResult IssueDetail), secondaryFails resp →
      fetchIssueDetails n resp = issuePlaceholder n ∧
      (issuePlaceholder n).title = "Issue #" ++ toString n ∧
      (issuePlaceholder n).body = "Unable to fetch issue details" ∧
      (issuePlaceholder n).labels = [] ∧ (issuePlaceholder n).comments = 0 := by
  intro n resp hf
  refine ⟨?_, rfl, rfl, rfl, rfl⟩
  cases resp with
  | netErr m => rfl
  | resp s st body =>
    have hs : respOk s = false := hf
    simp [fetchIssueDetails, hs]

/-- Witness for `fetchIssueDetails_placeholder` at a concrete failing fetch
(HTTP 500). -/
theorem fetchIssueDetails_placeholder_witness :
    fetchIssueDetails 7 (.resp 500 "ISE" ⟨"t", "b", [], 1⟩) = issuePlaceholder 7 ∧
    (issuePlaceholder 7).title = "Issue #7" :=
  ⟨(fetchIssueDetails_placeholder 7 (.resp 500 "ISE" ⟨"t", "b", [], 1⟩)
      (show respOk 500 = false from by decide)).1, rfl⟩

/-- Claim C8: `determineIssueType` checks labels first, in the fixed priority
order bug > documentation > enhancement > test > performance, then falls back
to keyword presence in title-or-body ("fix", then "add", then "improve"),
then defaults to "General Issue"; the first matching rule wins.  In
particular an issue labeled both "bug" and "documentation" classifies as
"Bug Fix". -/
theorem determineIssueType_claim :
    ∀ (title body : String) (labels : List String),
      ("bug" ∈ labels → determineIssueType title body labels = "Bug Fix") ∧
      ("bug" ∉ labels → "documentation" ∈ labels →
        determineIssueType title body labels = "Documentation") ∧
      ("bug" ∉ labels → "documentation" ∉ labels → "enhancement" ∈ labels →
        determineIssueType title body labels = "Feature Enhancement") ∧
      ("bug" ∉ labels → "documentation" ∉ labels → "enhancement" ∉ labels → "test" ∈ labels →
        determineIssueType title body labels = "Testing") ∧
      ("bug" ∉ labels → "documentation" ∉ labels → "enhancement" ∉ labels → "test" ∉ labels →
        "performance" ∈ labels → determineIssueType title body labels = "Performance") ∧
      ("bug" ∉ labels → "documentation" ∉ labels → "enhancement" ∉ labels → "test" ∉ labels →
        "performance" ∉ labels → (jsIncludes title "fix" || jsIncludes body "fix") = true →
        determineIssueType title body labels = "Bug Fix") ∧
      ("bug" ∉ labels → "documentation" ∉ labels → "enhancement" ∉ labels → "test" ∉ labels →
        "performance" ∉ labels → (jsIncludes title "fix" || jsIncludes body "fix") = false →
        (jsIncludes title "add" || jsIncludes body "add") = true →
        determineIssueType title body labels = "Feature Addition") ∧
      ("bug" ∉ labels → "documentation" ∉ labels → "enhancement" ∉ labels → "test" ∉ labels →
        "performance" ∉ labels → (jsIncludes title "fix" || jsIncludes body "fix") = false →
        (jsIncludes title "add" || jsIncludes body "add") = false →
        (jsIncludes title "improve" || jsIncludes body "improve") = true →
        determineIssueType title body labels = "Improvement") ∧
      ("bug" ∉ labels → "documentation" ∉ labels → "enhancement" ∉ labels → "test" ∉ labels →
        "performance" ∉ labels → (jsIncludes title "fix" || jsIncludes body "fix") = false →
        (jsIncludes title "add" || jsIncludes body "add") = false →
        (jsIncludes title "improve" || jsIncludes body "improve") = false →
        determineIssueType title body labels = "General Issue") := by
  intro title body labels
  refine ⟨?_, ?_, ?_, ?_, ?_, ?_, ?_, ?_, ?_⟩
  · intro h1
    simp [determineIssueType, h1]
  · intro h1 h2
    simp [determineIssueType, h1, h2]
  · intro h1 h2 h3
    simp [determineIssueType, h1, h2, h3]
  · intro h1 h2 h3 h4
    simp [determineIssueType, h1, h2, h3, h4]
  · intro h1 h2 h3 h4 h5
    simp [determineIssueType, h1, h2, h3, h4, h5]
  · intro h1 h2 h3 h4 h5 h6
    simp [determineIssueType, h1, h2, h3, h4, h5, h6]
  · intro h1 h2 h3 h4 h5 h6 h7
    simp [determineIssueType, h1, h2, h3, h4, h5, h6, h7]
  · intro h1 h2 h3 h4 h5 h6 h7 h8
    simp [determineIssueType, h1, h2, h3, h4, h5, h6, h7, h8]
  · intro h1 h2 h3 h4 h5 h6 h7 h8
    simp [determineIssueType, h1, h2, h3, h4, h5, h6, h7, h8]

/-- Witness for `determineIssueType_claim`: an issue labeled both `bug` and
`documentation` classifies as `Bug Fix`, and with no matching label the
"fix" keyword in the body wins. -/
theorem determineIssueType_claim_witness :
    determineIssueType "t" "b" ["documentation", "bug"] = "Bug Fix" ∧
    determineIssueType "t" "please fix this" [] = "Bug Fix" :=
  ⟨(determineIssueType_claim "t" "b" ["documentation", "bug"]).1 (by decide),
   (determineIssueType_claim "t" "please fix this" []).2.2.2.2.2.1
     (by decide) (by decide) (by decide) (by decide) (by decide) (by decide)⟩

/-! ### Requirement-extraction lemmas -/

theorem splitRuns_head : ∀ cs : List Char,
    ∃ ps, splitRuns cs = cs.takeWhile (fun c => !(isTerm c)) :: ps := by
  intro cs
  induction cs with
  | nil => exact ⟨[], rfl⟩
  | cons c cs ih =>
    by_cases hc : isTerm c = true
    · rw [List.takeWhile_cons]
      simp only [hc, Bool.not_true, Bool.false_eq_true, if_false]
      cases cs with
      | nil => exact ⟨[[]], by simp [splitRuns, hc]⟩
      | cons d ds =>
        by_cases hd : isTerm d = true
        · obtain ⟨ps, hps⟩ := ih
          refine ⟨ps, ?_⟩
          rw [show splitRuns (c :: d :: ds) = splitRuns (d :: ds) by simp [splitRuns, hc, hd]]
          rw [hps, List.takeWhile_cons]
          simp [hd]
        · exact ⟨splitRuns (d :: ds), by simp [splitRuns, hc, hd]⟩
    · obtain ⟨ps, hps⟩ := ih
      refine ⟨ps, ?_⟩
      rw [show splitRuns (c :: cs) = (match splitRuns cs with
        | [] => [[c]]
        | p :: ps => (c :: p) :: ps) by simp [splitRuns, hc]]
      rw [hps, List.takeWhile_cons]
      simp [hc]

theorem splitRuns_containsSub : ∀ (cs : List Char), ∀ p ∈ splitRuns cs, ∀ n : List Char,
    containsSub p n = true → containsSub cs n = true := by
  intro cs
  induction cs with
  | nil =>
    intro p hp n hc
    simp only [splitRuns, List.mem_singleton] at hp
    subst hp
    exact hc
  | cons c cs ih =>
    intro p hp n hc
    by_cases hterm : isTerm c = true
    · cases cs with
      | nil =>
        simp only [splitRuns, hterm, if_true, List.mem_cons, List.not_mem_nil, or_false] at hp
        have hpe : p = [] := by
          rcases hp with h | h
          · exact h
          · exact h
        subst hpe
        cases n with
        | nil => exact containsSub_nil _
        | cons m ms => simp [containsSub] at hc
      | cons d ds =>
        by_cases hd : isTerm d = true
        · rw [show splitRuns (c :: d :: ds) = splitRuns (d :: ds) by
            simp [splitRuns, hterm, hd]] at hp
          exact containsSub_cons c (ih p hp n hc)
        · rw [show splitRuns (c :: d :: ds) = [] :: splitRuns (d :: ds) by
            simp [splitRuns, hterm, hd]] at hp
          rw [List.mem_cons] at hp
          rcases hp with hpe | hp
          · subst hpe
            cases n with
            | nil => exact containsSub_nil _
            | cons m ms => simp [containsSub] at hc
          · exact containsSub_cons c (ih p hp n hc)
    · obtain ⟨ps, hps⟩ := splitRuns_head cs
      rw [show splitRuns (c :: cs) = (match splitRuns cs with
        | [] => [[c]]
        | p :: ps => (c :: p) :: ps) by simp [splitRuns, hterm]] at hp
      rw [hps] at hp
      dsimp only at hp
      rw [List.mem_cons] at hp
      rcases hp with hpe | hp
      · subst hpe
        simp only [containsSub, Bool.or_eq_true] at hc
        rcases hc with hs | hc
        · have hpre : cs = cs.takeWhile (fun x => !(isTerm x)) ++
              cs.dropWhile (fun x => !(isTerm x)) :=
            (List.takeWhile_append_dropWhile _ _).symm
          simp only [containsSub, Bool.or_eq_true]
          left
          rw [hpre, ← List.cons_append]
          exact listStartsWith_append _ hs
        · have hq : cs.takeWhile (fun x => !(isTerm x)) ∈ splitRuns cs := by
            rw [hps]; exact List.mem_cons_self _ _
          exact containsSub_cons c (ih _ hq n hc)
      · have hmem : p ∈ splitRuns cs := by
          rw [hps]; exact List.mem_cons_of_mem _ hp
        exact containsSub_cons c (ih p hmem n hc)

theorem filterMap_keyword (l : List (List Char)) :
    l.filterMap (fun sentence =>
        if hasKeyword sentence then
          (fun cleanSentence =>
            if 10 < cleanSentence.length then some (String.mk cleanSentence) else none)
            (stripLeadWord (jsTrim sentence))
        else none) =
      ((l.filter hasKeyword).map (fun s => String.mk (stripLeadWord (jsTrim s)))).filter
        (fun c => 10 < c.length) := by
  induction l with
  | nil => rfl
  | cons x xs ih =>
    by_cases hk : hasKeyword x = true
    · by_cases hlen : 10 < (stripLeadWord (jsTrim x)).length
      · have hlen' : 10 < (String.mk (stripLeadWord (jsTrim x))).length := hlen
        simp [List.filterMap_cons, List.filter_cons, hk, hlen, hlen', ih]
      · have hlen' : ¬10 < (String.mk (stripLeadWord (jsTrim x))).length := hlen
        simp [List.filterMap_cons, List.filter_cons, hk, hlen, hlen', ih]
    · simp [List.filterMap_cons, List.filter_cons, hk, ih]

/-- Claim C9 counterexample: the claim as stated is false on the code.  The
body `"z must abcde"` has the single sentence `"z must abcde"`; it contains
"must", and stripping the leading word token leaves `"must abcde"`, which has
exactly 10 characters.  The claim ("discards sentences under 10 characters
after stripping") would keep it, but the code requires strictly more than 10
characters and returns the empty list. -/
theorem extractRequirements_claim_counterexample :
    extractRequirements "z must abcde" = [] ∧
    extractRequirementsClaim "z must abcde" = ["must abcde"] := ⟨by decide, by decide⟩

/-- Claim C9 (amended): `extractRequirements` splits the body on the sentence
terminators `.`, `!`, `?`, keeps exactly the sentences containing "should",
"must" or "need", strips one leading word token from each kept sentence,
discards sentences of 10 characters or fewer after stripping, caps the
result at 5 entries, and preserves the source order — that is, it equals the
claim's pipeline with the length threshold corrected to "strictly more than
10". -/
theorem extractRequirements_amended_eq :
    ∀ body : String, extractRequirements body = extractRequirementsAmended body := by
  intro body
  unfold extractRequirements extractRequirementsAmended
  by_cases hg : hasKeyword body.data = true
  · rw [if_pos hg]
    exact congrArg (fun l => l.take 5) (filterMap_keyword (splitRuns body.data))
  · rw [if_neg hg]
    have hnil : (splitRuns body.data).filter hasKeyword = [] := by
      rw [List.filter_eq_nil_iff]
      intro p hp hkp
      apply hg
      simp only [hasKeyword, Bool.or_eq_true] at hkp ⊢
      rcases hkp with (h1 | h2) | h3
      · exact Or.inl (Or.inl (splitRuns_containsSub _ p hp _ h1))
      · exact Or.inl (Or.inr (splitRuns_containsSub _ p hp _ h2))
      · exact Or.inr (splitRuns_containsSub _ p hp _ h3)
    rw [hnil]
    rfl

/-! ### Chart URL lemmas -/

theorem encList_append (a b : List Char) : encList (a ++ b) = encList a ++ encList b := by
  induction a with
  | nil => rfl
  | cons c cs ih => simp [encList, ih, List.append_assoc]

theorem encStr_append (a b : String) : encStr (a ++ b) = encStr a ++ encStr b :=
  congrArg String.mk (encList_append a.data b.data)

theorem append_ne_empty_left {s : String} (t : String) (h : s.data ≠ []) : s ++ t ≠ "" := by
  intro he
  apply h
  have h2 : s.data ++ t.data = [] := congrArg String.data he
  exact (List.append_eq_nil.mp h2).1

theorem quickchart_ne_empty (s t : String) :
    ("https://quickchart.io/chart?c=" ++ s ++ t) ≠ "" := by
  apply append_ne_empty_left
  intro h0
  have h1 : ("https://quickchart.io/chart?c=" : String).data = [] :=
    (List.append_eq_nil.mp h0).1
  exact absurd h1 (by decide)

theorem quickchart_ne_empty_nosize (s : String) :
    ("https://quickchart.io/chart?c=" ++ s) ≠ "" :=
  append_ne_empty_left s (by decide)

theorem barConfig_contains (d : List Int) :
    jsIncludes (encStr (barChartConfigJson d)) "Stars" = true ∧
    jsIncludes (encStr (barChartConfigJson d)) "Forks" = true ∧
    jsIncludes (encStr (barChartConfigJson d)) "Open%20Issues" = true ∧
    jsIncludes (encStr (barChartConfigJson d)) "Open%20PRs" = true ∧
    jsIncludes (encStr (barChartConfigJson d)) "Closed%20PRs" = true := by
  unfold barChartConfigJson
  rw [encStr_append, encStr_append]
  refine ⟨?_, ?_, ?_, ?_, ?_⟩ <;>
    exact jsIncludes_append_left _ (jsIncludes_append_left _ (by decide))

/-- Claim C5 counterexample: the claim as stated is false on the code.  For
input `{stars: 1, forks: 0, openIssues: 0, openPRs: 0, closedPRs: 0}` both
bar-chart builders return a non-empty URL, but the URL does not contain the
literal label "Open Issues": `encodeURIComponent` percent-encodes the space,
so the label appears as `Open%20Issues`. -/
theorem generateBarChartUrl_claim_counterexample :
    generateBarChartUrl ⟨.num 1, .num 0, .num 0, .num 0, .num 0⟩ ≠ "" ∧
    jsIncludes (generateBarChartUrl ⟨.num 1, .num 0, .num 0, .num 0, .num 0⟩)
      "Open Issues" = false ∧
    jsIncludes (generateBarChartUrlReporter ⟨.num 1, .num 0, .num 0, .num 0, .num 0⟩)
      "Open Issues" = false := by
  refine ⟨by decide, by decide, by decide⟩

/-- Claim C5 (amended): both bar-chart builders return the empty string
exactly when all five values are zero after coercing non-finite values to 0;
otherwise they return a non-empty URL that contains the labels "Stars" and
"Forks" literally and the multi-word labels in percent-encoded form
("Open%20Issues", "Open%20PRs", "Closed%20PRs"), since the JSON chart
specification is URI-encoded into the URL. -/
theorem generateBarChartUrl_amended :
    ∀ x : BarInput,
      (generateBarChartUrl x = "" ↔
        (safeVal x.stars = 0 ∧ safeVal x.forks = 0 ∧ safeVal x.openIssues = 0 ∧
          safeVal x.openPRs = 0 ∧ safeVal x.closedPRs = 0)) ∧
      (generateBarChartUrlReporter x = "" ↔
        (safeVal x.stars = 0 ∧ safeVal x.forks = 0 ∧ safeVal x.openIssues = 0 ∧
          safeVal x.openPRs = 0 ∧ safeVal x.closedPRs = 0)) ∧
      (generateBarChartUrl x ≠ "" →
        jsIncludes (generateBarChartUrl x) "Stars" = true ∧
        jsIncludes (generateBarChartUrl x) "Forks" = true ∧
        jsIncludes (generateBarChartUrl x) "Open%20Issues" = true ∧
        jsIncludes (generateBarChartUrl x) "Open%20PRs" = true ∧
        jsIncludes (generateBarChartUrl x) "Closed%20PRs" = true) ∧
      (generateBarChartUrlReporter x ≠ "" →
        jsIncludes (generateBarChartUrlReporter x) "Stars" = true ∧
        jsIncludes (generateBarChartUrlReporter x) "Forks" = true ∧
        jsIncludes (generateBarChartUrlReporter x) "Open%20Issues" = true ∧
        jsIncludes (generateBarChartUrlReporter x) "Open%20PRs" = true ∧
        jsIncludes (generateBarChartUrlReporter x) "Closed%20PRs" = true) := by
  intro x
  have hball : (([x.stars, x.forks, x.openIssues, x.openPRs, x.closedPRs].map safeVal).all
      (fun v => v == 0) = true) ↔
      (safeVal x.stars = 0 ∧ safeVal x.forks = 0 ∧ safeVal x.openIssues = 0 ∧
        safeVal x.openPRs = 0 ∧ safeVal x.closedPRs = 0) := by
    simp [List.all_cons]
  have hc := barConfig_contains
    ([x.stars, x.forks, x.openIssues, x.openPRs, x.closedPRs].map safeVal)
  refine ⟨?_, ?_, ?_, ?_⟩
  · constructor
    · intro he
      by_cases hb : ([x.stars, x.forks, x.openIssues, x.openPRs, x.closedPRs].map safeVal).all
          (fun v => v == 0) = true
      · exact hball.mp hb
      · exfalso
        have hval : generateBarChartUrl x = "https://quickchart.io/chart?c=" ++
            encStr (barChartConfigJson
              ([x.stars, x.forks, x.openIssues, x.openPRs, x.closedPRs].map safeVal)) ++
            "&width=500&height=220" := by
          simp only [generateBarChartUrl]
          rw [if_neg hb]
        rw [hval] at he
        exact quickchart_ne_empty _ _ he
    · intro hz
      simp only [generateBarChartUrl]
      rw [if_pos (hball.mpr hz)]
  · constructor
    · intro he
      by_cases hb : ([x.stars, x.forks, x.openIssues, x.openPRs, x.closedPRs].map safeVal).all
          (fun v => v == 0) = true
      · exact hball.mp hb
      · exfalso
        have hval : generateBarChartUrlReporter x = "https://quickchart.io/chart?c=" ++
            encStr (barChartConfigJson
              ([x.stars, x.forks, x.openIssues, x.openPRs, x.closedPRs].map safeVal)) := by
          simp only [generateBarChartUrlReporter]
          rw [if_neg hb]
        rw [hval] at he
        exact quickchart_ne_empty_nosize _ he
    · intro hz
      simp only [generateBarChartUrlReporter]
      rw [if_pos (hball.mpr hz)]
  · intro hne
    by_cases hb : ([x.stars, x.forks, x.openIssues, x.openPRs, x.closedPRs].map safeVal).all
        (fun v => v == 0) = true
    · exact absurd (by simp only [generateBarChartUrl]; rw [if_pos hb]) hne
    · have hval : generateBarChartUrl x = "https://quickchart.io/chart?c=" ++
          encStr (barChartConfigJson
            ([x.stars, x.forks, x.openIssues, x.openPRs, x.closedPRs].map safeVal)) ++
          "&width=500&height=220" := by
        simp only [generateBarChartUrl]
        rw [if_neg hb]
      rw [hval]
      exact ⟨jsIncludes_append_left _ (jsIncludes_append_right _ hc.1),
        jsIncludes_append_left _ (jsIncludes_append_right _ hc.2.1),
        jsIncludes_append_left _ (jsIncludes_append_right _ hc.2.2.1),
        jsIncludes_append_left _ (jsIncludes_append_right _ hc.2.2.2.1),
        jsIncludes_append_left _ (jsIncludes_append_right _ hc.2.2.2.2)⟩
  · intro hne
    by_cases hb : ([x.stars, x.forks, x.openIssues, x.openPRs, x.closedPRs].map safeVal).all
        (fun v => v == 0) = true
    · exact absurd (by simp only [generateBarChartUrlReporter]; rw [if_pos hb]) hne
    · have hval : generateBarChartUrlReporter x = "https://quickchart.io/chart?c=" ++
          encStr (barChartConfigJson
            ([x.stars, x.forks, x.openIssues, x.openPRs, x.closedPRs].map safeVal)) := by
        simp only [generateBarChartUrlReporter]
        rw [if_neg hb]
      rw [hval]
      exact ⟨jsIncludes_append_right _ hc.1,
        jsIncludes_append_right _ hc.2.1,
        jsIncludes_append_right _ hc.2.2.1,
        jsIncludes_append_right _ hc.2.2.2.1,
        jsIncludes_append_right _ hc.2.2.2.2⟩

/-- Witness for `generateBarChartUrl_amended`: the all-zero input suppresses
the chart, and the input with one star yields a URL containing the encoded
label. -/
theorem generateBarChartUrl_amended_witness :
    generateBarChartUrl ⟨.num 0, .num 0, .num 0, .num 0, .num 0⟩ = "" ∧
    jsIncludes (generateBarChartUrl ⟨.num 1, .num 0, .num 0, .num 0, .num 0⟩)
      "Open%20Issues" = true := by
  have h0 := generateBarChartUrl_amended ⟨.num 0, .num 0, .num 0, .num 0, .num 0⟩
  have h1 := generateBarChartUrl_amended ⟨.num 1, .num 0, .num 0, .num 0, .num 0⟩
  exact ⟨h0.1.mpr (by decide), (h1.2.2.1 (by decide)).2.2.1⟩

theorem rangeMap_getD {α : Type} (f : Nat → α) (n i : Nat) (d : α) (h : i < n) :
    ((List.range n).map f).getD i d = f i := by
  rw [List.getD_eq_getElem _ d (by simpa using h)]
  simp

/-- Claim C6 counterexample: the claim as stated is false on the pie-chart
builder in github-reporter-tool.ts, which the claim's sources include.  That
builder's palette has 10 entries (not 20) and is truncated with
`slice(0, N)` instead of cycling: for the 21-language mapping `langs21` it
produces a non-empty URL whose backgroundColor array is
`reporterColors.take 21` with only 10 entries, so position 20 has no color —
whereas cyclic assignment (satisfied by the utils.ts `getColorPalette`)
repeats the color of position 20 % 20 = 0. -/
theorem generatePieChartUrl_claim_counterexample :
    generatePieChartUrlReporter langs21 ≠ "" ∧
    (reporterColors.take langs21.length).length = 10 ∧
    (reporterColors.take langs21.length).getD 20 "" ≠
      (reporterColors.take langs21.length).getD (20 % 20) "" ∧
    (getColorPalette langs21.length).getD 20 "" =
      (getColorPalette langs21.length).getD (20 % 20) "" :=
  ⟨by decide, by decide, by decide, by decide⟩

/-- Claim C6 (amended): both pie-chart builders return the empty string
exactly for an empty language mapping.  The utils.ts builder assigns slice
colors cyclically from the fixed 20-entry palette: `getColorPalette n` has
one color per language and `color(i) = color(i mod 20)`.  The copy in
github-reporter-tool.ts instead truncates a 10-entry palette to
`min n 10` colors with no cycling. -/
theorem generatePieChartUrl_amended :
    (∀ langs : List (String × Nat),
      (generatePieChartUrl langs = "" ↔ langs = []) ∧
      (generatePieChartUrlReporter langs = "" ↔ langs = [])) ∧
    (∀ n : Nat, (getColorPalette n).length = n) ∧
    (∀ n i : Nat, i < n →
      (getColorPalette n).getD i "" = (getColorPalette n).getD (i % 20) "") ∧
    (∀ n : Nat, (reporterColors.take n).length = min n 10) := by
  refine ⟨?_, ?_, ?_, ?_⟩
  · intro langs
    cases langs with
    | nil =>
      exact ⟨by simp [generatePieChartUrl], by simp [generatePieChartUrlReporter]⟩
    | cons pr ls =>
      constructor
      · constructor
        · intro he
          exfalso
          have hval : generatePieChartUrl (pr :: ls) = "https://quickchart.io/chart?c=" ++
              encStr (pieConfigJson ((pr :: ls).map Prod.fst) ((pr :: ls).map Prod.snd)) ++
              "&width=500&height=220" := by
            simp only [generatePieChartUrl]
            rw [if_neg (by simp)]
          rw [hval] at he
          exact quickchart_ne_empty _ _ he
        · intro he
          exact absurd he (List.cons_ne_nil pr ls)
      · constructor
        · intro he
          exfalso
          have hval : generatePieChartUrlReporter (pr :: ls) = "https://quickchart.io/chart?c=" ++
              encStr (pieConfigJsonReporter ((pr :: ls).map Prod.fst)
                ((pr :: ls).map Prod.snd)) := by
            simp only [generatePieChartUrlReporter]
            rw [if_neg (by simp)]
          rw [hval] at he
          exact quickchart_ne_empty_nosize _ he
        · intro he
          exact absurd he (List.cons_ne_nil pr ls)
  · intro n
    simp [getColorPalette]
  · intro n i h
    have h2 : i % 20 < n := lt_of_le_of_lt (Nat.mod_le i 20) h
    unfold getColorPalette
    rw [rangeMap_getD _ _ _ _ h, rangeMap_getD _ _ _ _ h2]
    have hlen : baseColors.length = 20 := rfl
    rw [hlen, Nat.mod_mod_of_dvd i dvd_rfl]
  · intro n
    rw [List.length_take]
    rfl

/-- Witness for `generatePieChartUrl_amended`: a two-language mapping gives a
non-empty URL, and in a 25-entry palette the color at position 21 repeats
the color at position 1. -/
theorem generatePieChartUrl_amended_witness :
    generatePieChartUrl [("TypeScript", 100), ("Lean", 50)] ≠ "" ∧
    (getColorPalette 25).getD 21 "" = (getColorPalette 25).getD 1 "" := by
  have h1 := (generatePieChartUrl_amended.1 [("TypeScript", 100), ("Lean", 50)]).1
  have h2 := generatePieChartUrl_amended.2.2.1 25 21 (by decide)
  constructor
  · intro he
    exact absurd (h1.mp he) (by decide)
  · exact h2.trans (by decide)
